import Mathlib

/-!
Verification development for the hospital appointment scheduling engine.

Shallow embedding conventions:
* A calendar date is a `Nat` counting days from a fixed epoch chosen to be a
  Monday, so Python's `date.weekday()` (Monday = 0) is `d % 7` and the
  engine's Sunday-based weekday (`(weekday + 1) % 7`) is `codeDow`.
* A time of day is a `Nat` of minutes since midnight; the source compares
  datetimes in seconds (7200 s = 120 min), modelled in minutes.
* The SQLAlchemy session is a `DB` record of tables, each a list kept in
  row-insertion (primary-key) order; `query(...).first()` is `List.find?`,
  `order_by(id.desc()).first()` on an insertion-ordered table is
  `List.getLast?`, and autoincrement ids are `nextId`.
* `ORDER BY appointment_date DESC` is modelled as a stable descending sort
  (`List.insertionSort` on `byDateDesc`), ties keeping row order.
* Fallible steps (Python exceptions) return `Option`; the orchestrator's
  `except` blocks become explicit error outcomes.
-/

namespace Hospital

/-- Row of the `doctors` table (src/models/database.py); timestamp and
contact columns not read by the engine are omitted. -/
structure Doctor where
  id : Nat
  name : String
  specialty : String
deriving Repr, DecidableEq

/-- Row of the `doctor_schedules` table: a weekly recurring availability
rule (`day_of_week`: 0 = Sunday .. 6 = Saturday). -/
structure DoctorSchedule where
  doctor_id : Nat
  day_of_week : Nat
  start_time : Nat
  end_time : Nat
  is_active : Bool
deriving Repr, DecidableEq

/-- Row of the `patients` table (columns read by the engine). -/
structure Patient where
  id : Nat
  name : String
  phone : String
deriving Repr, DecidableEq

/-- Row of the `appointments` table (columns read or written by the engine). -/
structure Appointment where
  id : Nat
  patient_id : Nat
  doctor_id : Nat
  appointment_date : Nat
  appointment_time : Nat
  duration_minutes : Nat
  status : String
  symptoms : String
  notes : String
  serial_number : String
  booking_channel : String
deriving Repr, DecidableEq

/-- Row of the `time_slots` table; a row with `is_blocked = true` removes an
otherwise-open slot. -/
structure TimeSlot where
  doctor_id : Nat
  slot_date : Nat
  slot_time : Nat
  is_blocked : Bool
deriving Repr, DecidableEq

/-- Row of the `specialties` table (columns read by the engine). -/
structure Specialty where
  id : Nat
  name : String
deriving Repr, DecidableEq

/-- Row of the `symptom_mappings` table; `symptom_keywords` holds the
already-decoded JSON array of keyword strings. -/
structure SymptomMapping where
  symptom_keywords : List String
  specialty_id : Nat
  priority : Nat
deriving Repr, DecidableEq

/-- The persistent store: one list per table, in row-insertion order. -/
structure DB where
  doctors : List Doctor
  schedules : List DoctorSchedule
  patients : List Patient
  appointments : List Appointment
  time_slots : List TimeSlot
  specialties : List Specialty
  symptom_mappings : List SymptomMapping
deriving Repr, DecidableEq

/-! ## Generic helpers -/

/-- Python's per-character `str.lower()` on the ASCII range. -/
def lowerChars (s : String) : List Char :=
  s.toList.map Char.toLower

/-- The first list heads the second one (character-by-character match). -/
def leadsList (needle hay : List Char) : Bool :=
  match needle, hay with
  | [], _ => true
  | _ :: _, [] => false
  | a :: as, b :: bs => a == b && leadsList as bs

/-- Python's substring test `needle in hay` on character lists. -/
def isSubstr (needle hay : List Char) : Bool :=
  leadsList needle hay ||
    match hay with
    | [] => false
    | _ :: t => isSubstr needle t

/-- The engine's Sunday-based weekday of a date:
`(date.weekday() + 1) % 7` with the epoch fixed on a Monday. -/
def codeDow (d : Nat) : Nat := (d % 7 + 1) % 7

/-- Absolute difference on `Nat` (Python `abs(a - b)`). -/
def minuteDist (a b : Nat) : Nat := (a - b) + (b - a)

/-- Autoincrement primary key: one more than the largest existing id. -/
def nextId (ids : List Nat) : Nat := ids.foldr max 0 + 1

/-- Replace the first element satisfying `p` (the ORM mutates the single row
returned by `query(...).first()`). -/
def updateFirst (p : α → Bool) (f : α → α) : List α → List α
  | [] => []
  | x :: xs => if p x then f x :: xs else x :: updateFirst p f xs

/-- Descending order on a `Nat` key: `a` may precede `b` when its key is at
least `b`'s.  A stable sort under this relation is exactly Python's stable
`sorted(..., reverse=True)` / SQL `ORDER BY key DESC` with ties in row order. -/
def keyDesc (key : α → Nat) (a b : α) : Prop := key b ≤ key a

instance (key : α → Nat) : DecidableRel (keyDesc key) :=
  fun a b => inferInstanceAs (Decidable (key b ≤ key a))

instance (key : α → Nat) : IsTotal α (keyDesc key) :=
  ⟨fun a b => (Nat.le_total (key b) (key a)).elim Or.inl Or.inr⟩

instance (key : α → Nat) : IsTrans α (keyDesc key) :=
  ⟨fun _ _ _ hab hbc => Nat.le_trans hbc hab⟩

/-! ## Serial numbers (RAGService.generate_serial_number)

Python formats the serial as `f"XH{n:03d}"` and parses it back with
`int(serial[2:])`.  Decimal formatting and parsing are modelled on
character lists; parsing is partial (`Option`), as `int` raises on
non-digit input. -/

/-- The ASCII digit character for a digit value below ten. -/
def digitChar (d : Nat) : Char := Char.ofNat (48 + d)

/-- The value of an ASCII digit character, if it is one. -/
def charDigit? (c : Char) : Option Nat :=
  if 48 ≤ c.toNat && c.toNat ≤ 57 then some (c.toNat - 48) else none

/-- Accumulating decimal read of a digit string; fails on a non-digit. -/
def digitsVal : List Char → Nat → Option Nat
  | [], acc => some acc
  | c :: cs, acc =>
    match charDigit? c with
    | some d => digitsVal cs (acc * 10 + d)
    | none => none

/-- Python `int(s)` restricted to nonnegative all-digit strings (the only
shape the engine ever produces); anything else fails, as `int` raises. -/
def pyInt? (cs : List Char) : Option Nat :=
  match cs with
  | [] => none
  | _ :: _ => digitsVal cs 0

/-- Decimal writer, most significant digit first, prepending onto `acc`;
`fuel` only bounds the recursion depth and any `fuel > n` is enough. -/
def natReprAux : Nat → Nat → List Char → List Char
  | 0, _, acc => acc
  | fuel + 1, n, acc =>
    if n < 10 then digitChar n :: acc
    else natReprAux fuel (n / 10) (digitChar (n % 10) :: acc)

/-- Decimal representation of `n`, most significant digit first. -/
def natRepr (n : Nat) : List Char := natReprAux (n + 1) n []

/-- Left-pad with zeros to width three (`%03d`). -/
def pad3 (cs : List Char) : List Char :=
  List.replicate (3 - cs.length) (digitChar 0) ++ cs

/-- The serial string of numeric suffix `n`: `"XH"` then `n` zero-padded to
three digits. -/
def mkSerial (n : Nat) : String :=
  String.mk ('X' :: 'H' :: pad3 (natRepr n))

/-- Parse the numeric suffix of a serial: `int(serial[2:])`. -/
def serialSuffix? (s : String) : Option Nat :=
  pyInt? (s.toList.drop 2)

/-- RAGService.generate_serial_number: read the serial of the appointment
with the highest id (the last row), add one to its numeric suffix, or start
at 1 when no appointment exists.  `none` models the `ValueError` raised by
`int` on a malformed stored serial. -/
def generate_serial_number (db : DB) : Option String :=
  match db.appointments.getLast? with
  | none => some (mkSerial 1)
  | some apt => (serialSuffix? apt.serial_number).map (fun k => mkSerial (k + 1))

/-! ## Slot availability (RAGService / SchedulerAgent) -/

/-- SchedulerAgent._is_slot_still_available: no `scheduled` appointment and
no blocked time-slot row at `(doctor_id, date, time)`.  The availability
generator's inline per-slot checks in `get_doctor_availability` are the
same two queries, so both use this definition. -/
def is_slot_still_available (db : DB) (did d t : Nat) : Bool :=
  (db.appointments.find? (fun a =>
      a.doctor_id == did && a.appointment_date == d &&
      a.appointment_time == t && a.status == "scheduled")).isNone &&
  (db.time_slots.find? (fun s =>
      s.doctor_id == did && s.slot_date == d && s.slot_time == t &&
      s.is_blocked == true)).isNone

/-- The slot dictionary built by `get_doctor_availability`. -/
structure Slot where
  date : Nat
  time : Nat
  sdatetime : Nat
  doctor_id : Nat
  doctor_name : String
  specialty : String
deriving Repr, DecidableEq

/-- Candidate times of one day: 30-minute steps from `start` (inclusive)
while strictly below `stop`, in closed form (the loop runs
`ceil((stop - start) / 30)` times); `slotTimes_eq` below shows this is the
source's `while current_time < end_time` loop. -/
def slotTimes (start stop : Nat) : List Nat :=
  (List.range ((stop - start + 29) / 30)).map (fun i => start + 30 * i)

/-- The doctor's weekly rules, in rule definition (row) order. -/
def schedulesFor (db : DB) (did : Nat) : List DoctorSchedule :=
  db.schedules.filter (fun r => r.doctor_id == did)

/-- The first active rule matching the given engine weekday, in rule
definition order (the `for schedule in schedules: ... break` loop). -/
def firstActiveRule (db : DB) (did dow : Nat) : Option DoctorSchedule :=
  (schedulesFor db did).find? (fun r => r.day_of_week == dow && r.is_active)

/-- Slots contributed by a single date. -/
def daySlots (db : DB) (doc : Doctor) (d : Nat) : List Slot :=
  match firstActiveRule db doc.id (codeDow d) with
  | none => []
  | some r =>
    ((slotTimes r.start_time r.end_time).filter
        (fun t => is_slot_still_available db doc.id d t)).map
      (fun t =>
        { date := d, time := t, sdatetime := d * 1440 + t,
          doctor_id := doc.id, doctor_name := doc.name,
          specialty := doc.specialty })

/-- RAGService.get_doctor_availability: for each date from `start` to
`start + days` inclusive (the `while current_date <= end_date` loop), the
slots of the first matching active rule, minus booked and blocked ones;
empty when the doctor id is unknown. -/
def get_doctor_availability (db : DB) (did start days : Nat) : List Slot :=
  match db.doctors.find? (fun doc => doc.id == did) with
  | none => []
  | some doc => (List.range (days + 1)).flatMap (fun i => daySlots db doc (start + i))

/-! ## Symptom search (RAGService.search_doctors_by_symptoms) -/

/-- Score one mapping row against the lowercased text: each keyword that is
a substring adds the row's priority. -/
def mappingScore (text : List Char) (m : SymptomMapping) : Nat :=
  m.symptom_keywords.foldl
    (fun acc k => if isSubstr (lowerChars k) text then acc + m.priority else acc) 0

/-- Add a positive score to the insertion-ordered dictionary
`specialty_scores` (new keys are appended, existing keys accumulate). -/
def addScore (l : List (Nat × Nat)) (sid sc : Nat) : List (Nat × Nat) :=
  if l.any (fun p => p.1 == sid) then
    l.map (fun p => if p.1 == sid then (p.1, p.2 + sc) else p)
  else
    l ++ [(sid, sc)]

/-- One iteration of the mapping loop: a mapping with a positive score
adds it to its specialty's dictionary entry. -/
def scoreStep (text : List Char) (l : List (Nat × Nat)) (m : SymptomMapping) :
    List (Nat × Nat) :=
  let sc := mappingScore text m
  if 0 < sc then addScore l m.specialty_id sc else l

/-- The `specialty_scores` dictionary after the mapping loop, as an
association list in key first-insertion order. -/
def specialty_scores (db : DB) (symptoms : String) : List (Nat × Nat) :=
  db.symptom_mappings.foldl (scoreStep (lowerChars symptoms)) []

/-- The value stored for a key in the dictionary (sum over its entries;
a key held once contributes just its value). -/
def assocScore (l : List (Nat × Nat)) (sid : Nat) : Nat :=
  ((l.filter (fun p => p.1 == sid)).map Prod.snd).sum

/-- Total additive score of a specialty over a mapping list: every mapping
row of that specialty contributes its `mappingScore`. -/
def sumScores (text : List Char) (ms : List SymptomMapping) (sid : Nat) : Nat :=
  ((ms.filter (fun m => m.specialty_id == sid)).map (mappingScore text)).sum

/-- Python's stable `sorted(scores.items(), key=score, reverse=True)[:3]`:
stable descending sort on the score, then the first three entries. -/
def sorted_specialties (db : DB) (symptoms : String) : List (Nat × Nat) :=
  ((specialty_scores db symptoms).insertionSort (keyDesc Prod.snd)).take 3

/-- A doctor dictionary returned by the symptom search
(`_doctor_to_dict` plus the aggregate `match_score` annotation; the
annotation is absent on the plain `_doctor_to_dict` output). -/
structure RecDoctor where
  id : Nat
  name : String
  specialty : String
  match_score : Option Nat
deriving Repr, DecidableEq

/-- RAGService._doctor_to_dict (columns the engine reads back). -/
def doctor_to_dict (d : Doctor) : RecDoctor :=
  { id := d.id, name := d.name, specialty := d.specialty, match_score := none }

/-- RAGService.search_doctors_by_symptoms: every doctor of each of the top
three specialties, annotated with the specialty's aggregate score. -/
def search_doctors_by_symptoms (db : DB) (symptoms : String) : List RecDoctor :=
  (sorted_specialties db symptoms).flatMap (fun p =>
    match db.specialties.find? (fun sp => sp.id == p.1) with
    | none => []
    | some sp =>
      (db.doctors.filter (fun d => d.specialty == sp.name)).map (fun d =>
        { id := d.id, name := d.name, specialty := d.specialty,
          match_score := some p.2 }))

/-! ## Urgency classifier (RAGService.get_urgent_symptoms_check) -/

/-- The fixed high-severity keyword list of the source. -/
def urgent_keywords : List String :=
  ["severe chest pain", "heart attack", "stroke", "unconscious",
   "severe bleeding", "broken bone", "high fever", "difficulty breathing",
   "poisoning", "severe injury", "emergency", "urgent"]

/-- The fixed medium-severity keyword list of the source. -/
def medium_keywords : List String :=
  ["chest pain", "severe headache", "high blood pressure",
   "persistent fever", "severe pain", "kidney stone"]

/-- RAGService._get_urgency_recommendation. -/
def get_urgency_recommendation (level : String) : String :=
  if level = "high" then
    "Please seek immediate emergency care or call emergency services."
  else if level = "medium" then
    "You should see a doctor as soon as possible, preferably today."
  else
    "You can schedule a regular appointment with the appropriate specialist."

/-- Result dictionary of the urgency check. -/
structure UrgencyResult where
  urgency_level : String
  matched_keywords : List String
  recommendation : String
deriving Repr, DecidableEq

/-- RAGService.get_urgent_symptoms_check: any high-severity hit forces
`high` with all high hits collected; otherwise any medium-severity hit
forces `medium`; otherwise `low`. -/
def get_urgent_symptoms_check (symptoms : String) : UrgencyResult :=
  let sl := lowerChars symptoms
  let highHits := urgent_keywords.filter (fun k => isSubstr k.toList sl)
  if highHits.isEmpty then
    let medHits := medium_keywords.filter (fun k => isSubstr k.toList sl)
    let level := if medHits.isEmpty then "low" else "medium"
    { urgency_level := level, matched_keywords := medHits,
      recommendation := get_urgency_recommendation level }
  else
    { urgency_level := "high", matched_keywords := highHits,
      recommendation := get_urgency_recommendation "high" }

/-! ## Booking orchestrator (SchedulerAgent) -/

/-- The booking request (models/schemas.AppointmentBookingRequest fields the
engine reads). -/
structure BookingRequest where
  patient_name : String
  patient_phone : String
  symptoms : String
  preferred_date : Option Nat
  preferred_time : Option Nat
  booking_channel : String
deriving Repr, DecidableEq

/-- The control outcome of `book_appointment`: one constructor per return
site of the source. -/
inductive BookOutcome where
  | noDoctors
  | urgent (recommendation : String)
  | noAvailability
  | booked (appointment : Appointment)
  | bookError
deriving Repr, DecidableEq

/-- The booking response (success flag, outcome of the reached return site,
suggested doctors and alternative slots). -/
structure BookResponse where
  success : Bool
  outcome : BookOutcome
  suggested_doctors : List RecDoctor
  available_slots : List Slot
deriving Repr, DecidableEq

/-- SchedulerAgent._get_or_create_patient: look up by phone, else insert a
new row and commit. -/
def get_or_create_patient (db : DB) (name phone : String) : DB × Patient :=
  match db.patients.find? (fun p => p.phone == phone) with
  | some p => (db, p)
  | none =>
    let p : Patient :=
      { id := nextId (db.patients.map (fun q => q.id)), name := name, phone := phone }
    ({ db with patients := db.patients ++ [p] }, p)

/-- SchedulerAgent._find_best_available_slot: scan 14 day offsets from the
preferred date (or today), the top five doctors, and each day's generated
slots; recheck each slot, then accept it — unless a preferred time is set,
in which case accept only when the slot's datetime is within 120 minutes of
the preferred time placed on the current search date. -/
def find_best_available_slot (db : DB) (docs : List RecDoctor)
    (pd pt : Option Nat) (today : Nat) : Option Slot :=
  let start := pd.getD today
  (List.range 14).findSome? (fun offset =>
    let search_date := start + offset
    (docs.take 5).findSome? (fun doc =>
      (get_doctor_availability db doc.id search_date 1).findSome? (fun slot =>
        if is_slot_still_available db slot.doctor_id slot.date slot.time then
          match pt with
          | some t =>
            if minuteDist slot.sdatetime (search_date * 1440 + t) ≤ 120 then
              some slot
            else
              none
          | none => some slot
        else
          none)))

/-- SchedulerAgent._create_appointment: issue a serial and insert the
`scheduled` row; `none` models the exception on a malformed stored serial. -/
def create_appointment (db : DB) (patient_id doctor_id d t : Nat)
    (symptoms booking_channel : String) : Option (DB × Appointment) :=
  (generate_serial_number db).map (fun serial =>
    let apt : Appointment :=
      { id := nextId (db.appointments.map (fun a => a.id)),
        patient_id := patient_id, doctor_id := doctor_id,
        appointment_date := d, appointment_time := t,
        duration_minutes := 30, status := "scheduled",
        symptoms := symptoms, notes := "", serial_number := serial,
        booking_channel := booking_channel }
    ({ db with appointments := db.appointments ++ [apt] }, apt))

/-- SchedulerAgent.book_appointment, sequentially (the source holds one
coarse lock for the whole body): find-or-create the patient, rank doctors,
gate on urgency, search a slot, then commit with a fresh serial.  `today`
is the external clock (`date.today()`). -/
def book_appointment (db : DB) (req : BookingRequest) (today : Nat) :
    DB × BookResponse :=
  let pr := get_or_create_patient db req.patient_name req.patient_phone
  let db1 := pr.1
  let recommended := search_doctors_by_symptoms db1 req.symptoms
  if recommended.isEmpty then
    (db1, { success := false, outcome := .noDoctors,
            suggested_doctors := [], available_slots := [] })
  else
    let urgency := get_urgent_symptoms_check req.symptoms
    if urgency.urgency_level == "high" then
      (db1, { success := false, outcome := .urgent urgency.recommendation,
              suggested_doctors := recommended.take 3, available_slots := [] })
    else
      match find_best_available_slot db1 recommended
          req.preferred_date req.preferred_time today with
      | none =>
        let alts := (recommended.take 3).flatMap
          (fun d => (get_doctor_availability db1 d.id today 14).take 5)
        (db1, { success := false, outcome := .noAvailability,
                suggested_doctors := recommended.take 3,
                available_slots := alts.take 10 })
      | some slot =>
        match create_appointment db1 pr.2.id slot.doctor_id slot.date slot.time
            req.symptoms req.booking_channel with
        | none =>
          (db1, { success := false, outcome := .bookError,
                  suggested_doctors := [], available_slots := [] })
        | some (db2, apt) =>
          (db2, { success := true, outcome := .booked apt,
                  suggested_doctors :=
                    ((db2.doctors.find? (fun d => d.id == slot.doctor_id)).map
                      (fun d => [doctor_to_dict d])).getD [],
                  available_slots := [] })

/-- Result of cancel and reschedule. -/
structure OpResult where
  success : Bool
  message : String
deriving Repr, DecidableEq

/-- Predicate of the `scheduled`-row lookup shared by cancel/reschedule. -/
def findScheduled (aid : Nat) (a : Appointment) : Bool :=
  a.id == aid && a.status == "scheduled"

/-- The in-place row mutation cancel performs. -/
def cancelUpdate (reason : String) (a : Appointment) : Appointment :=
  { a with status := "cancelled",
           notes := if reason == "" then "Cancelled by patient"
                    else "Cancelled: " ++ reason }

/-- The in-place row mutation reschedule performs. -/
def rescheduleUpdate (nd nt : Nat) (now : String) (a : Appointment) : Appointment :=
  { a with appointment_date := nd, appointment_time := nt,
           notes := "Rescheduled on " ++ now }

/-- SchedulerAgent.cancel_appointment: flip the first matching `scheduled`
row to `cancelled` and record the reason. -/
def cancel_appointment (db : DB) (aid : Nat) (reason : String) : DB × OpResult :=
  match db.appointments.find? (findScheduled aid) with
  | none =>
    (db, { success := false, message := "Appointment not found or already cancelled." })
  | some apt =>
    let appts := updateFirst (findScheduled aid) (cancelUpdate reason) db.appointments
    let db1 := { db with appointments := appts }
    (db1, { success := true,
            message := "Appointment " ++ apt.serial_number ++
                       " has been cancelled successfully." })

/-- SchedulerAgent.reschedule_appointment: recheck the new slot with
_is_slot_still_available, then mutate date and time in place.  `now` is the
external wall-clock string written into the notes. -/
def reschedule_appointment (db : DB) (aid nd nt : Nat) (now : String) :
    DB × OpResult :=
  match db.appointments.find? (findScheduled aid) with
  | none =>
    (db, { success := false, message := "Appointment not found or cannot be rescheduled." })
  | some apt =>
    if is_slot_still_available db apt.doctor_id nd nt then
      let appts := updateFirst (findScheduled aid) (rescheduleUpdate nd nt now)
        db.appointments
      let db1 := { db with appointments := appts }
      (db1, { success := true, message := "Appointment rescheduled" })
    else
      (db, { success := false, message := "The requested time slot is not available." })

/-- Entry dictionary of `get_patient_appointments`. -/
structure ApptEntry where
  id : Nat
  serial_number : String
  date : Nat
  time : Nat
  doctor_name : String
  specialty : String
  symptoms : String
  status : String
  notes : String
deriving Repr, DecidableEq

/-- Descending appointment-date order for `ORDER BY appointment_date DESC`. -/
abbrev byDateDesc : Appointment → Appointment → Prop :=
  keyDesc (fun a => a.appointment_date)

/-- SchedulerAgent.get_patient_appointments: the patient's rows ordered by
appointment date descending (stable on ties), rendered as dictionaries with
the doctor relationship resolved. -/
def get_patient_appointments (db : DB) (phone : String) : List ApptEntry :=
  match db.patients.find? (fun p => p.phone == phone) with
  | none => []
  | some patient =>
    ((db.appointments.filter (fun a => a.patient_id == patient.id)).insertionSort
        byDateDesc).map (fun a =>
      { id := a.id, serial_number := a.serial_number,
        date := a.appointment_date, time := a.appointment_time,
        doctor_name :=
          ((db.doctors.find? (fun d => d.id == a.doctor_id)).map
            (fun d => d.name)).getD "",
        specialty :=
          ((db.doctors.find? (fun d => d.id == a.doctor_id)).map
            (fun d => d.specialty)).getD "",
        symptoms := a.symptoms, status := a.status, notes := a.notes })

/-- A sequence of booking requests executed one after the other (the lock
serializes them); returns the final store and the serials of the successful
bookings in issuance order. -/
def bookRun (today : Nat) : DB → List BookingRequest → DB × List String
  | db, [] => (db, [])
  | db, r :: rs =>
    let step := book_appointment db r today
    let rest := bookRun today step.1 rs
    match step.2.outcome with
    | .booked apt => (rest.1, apt.serial_number :: rest.2)
    | _ => rest

/-! ## Invariants under study -/

/-- Two rows double-book: both `scheduled` with the same
(doctor, date, time). -/
def conflict (a b : Appointment) : Prop :=
  a.status = "scheduled" ∧ b.status = "scheduled" ∧
  a.doctor_id = b.doctor_id ∧ a.appointment_date = b.appointment_date ∧
  a.appointment_time = b.appointment_time

instance (a b : Appointment) : Decidable (conflict a b) := by
  unfold conflict; infer_instance

/-- Invariant (a) of the data model: no two `scheduled` appointments share
(doctor, date, time). -/
def NoDouble (db : DB) : Prop :=
  db.appointments.Pairwise (fun a b => ¬ conflict a b)

/-- Some active weekly rule of the doctor covers the slot: its weekday
matches the date and its half-open time range contains the time. -/
def ruleCovers (db : DB) (did d t : Nat) : Prop :=
  ∃ r ∈ schedulesFor db did,
    r.is_active = true ∧ r.day_of_week = codeDow d ∧
    r.start_time ≤ t ∧ t < r.end_time

/-- No blocked time-slot row coincides with the slot. -/
def notBlockedAt (db : DB) (did d t : Nat) : Prop :=
  ∀ s ∈ db.time_slots,
    ¬(s.doctor_id = did ∧ s.slot_date = d ∧ s.slot_time = t ∧
      s.is_blocked = true)

/-- Invariant (c) for one row: a `scheduled` appointment lies inside some
active weekly rule and on no blocked slot. -/
def SlotLegal (db : DB) (a : Appointment) : Prop :=
  a.status = "scheduled" →
    ruleCovers db a.doctor_id a.appointment_date a.appointment_time ∧
    notBlockedAt db a.doctor_id a.appointment_date a.appointment_time

/-- Invariant (c) for the whole store. -/
def WithinRules (db : DB) : Prop :=
  ∀ a ∈ db.appointments, SlotLegal db a

/-- The blocked-slot half of invariant (c) alone. -/
def NotBlockedInv (db : DB) : Prop :=
  ∀ a ∈ db.appointments, a.status = "scheduled" →
    notBlockedAt db a.doctor_id a.appointment_date a.appointment_time

/-- Numeric suffix of a stored serial, defaulting (never reached on
well-formed stores) to 0. -/
def apptSuffix (a : Appointment) : Nat :=
  (serialSuffix? a.serial_number).getD 0

/-- The numeric suffix the issuer will use next: one more than the last
row's suffix, or 1 when the table is empty. -/
def nextSuffix (appts : List Appointment) : Nat :=
  match appts.getLast? with
  | none => 1
  | some a => apptSuffix a + 1

/-- Serial-number invariant of reachable stores: every stored serial is the
canonical rendering of its numeric suffix, and suffixes strictly increase
in row (id) order. -/
def SerialsWF (db : DB) : Prop :=
  (∀ a ∈ db.appointments, a.serial_number = mkSerial (apptSuffix a)) ∧
  (db.appointments.map apptSuffix).Pairwise (· < ·)

/-! ## Spec-side mirror of the availability generator (spec section 4.4) -/

/-- The spec's wording of slot openness: no `scheduled` appointment exists
at (doctorId, date, time) and no blocked slot exists there. -/
def specSlotOpen (db : DB) (did d t : Nat) : Prop :=
  (∀ a ∈ db.appointments,
    ¬(a.doctor_id = did ∧ a.appointment_date = d ∧
      a.appointment_time = t ∧ a.status = "scheduled")) ∧
  notBlockedAt db did d t

instance (db : DB) (did d t : Nat) : Decidable (specSlotOpen db did d t) := by
  unfold specSlotOpen notBlockedAt; infer_instance

/-- Availability as worded by the spec, producing bare (date, time) pairs:
for each date in the inclusive range, the first matching active rule's
30-minute increments from rule start (inclusive) to rule end (exclusive),
keeping a time only when the slot is open. -/
def availabilitySpec (db : DB) (did startDate numDays : Nat) : List (Nat × Nat) :=
  (List.range (numDays + 1)).flatMap (fun i =>
    let d := startDate + i
    match firstActiveRule db did (codeDow d) with
    | none => []
    | some r =>
      ((slotTimes r.start_time r.end_time).filter
          (fun t => decide (specSlotOpen db did d t))).map (fun t => (d, t)))

instance (db : DB) (did d t : Nat) : Decidable (ruleCovers db did d t) := by
  unfold ruleCovers; infer_instance

instance (db : DB) (a : Appointment) : Decidable (SlotLegal db a) := by
  unfold SlotLegal notBlockedAt; infer_instance

instance (db : DB) : Decidable (WithinRules db) := by
  unfold WithinRules; infer_instance

instance (db : DB) : Decidable (NotBlockedInv db) := by
  unfold NotBlockedInv notBlockedAt; infer_instance

instance (db : DB) : Decidable (NoDouble db) := by
  unfold NoDouble; infer_instance

instance (db : DB) : Decidable (SerialsWF db) := by
  unfold SerialsWF; infer_instance

/-! ## Concrete stores used to settle the claims -/

/-- A doctor with an active Monday rule 18:00-20:00 (the epoch day 0 is a
Monday, so engine weekday 1 matches dates divisible by 7). -/
def drN : Doctor := ⟨1, "Dr. N", "Neurology"⟩

/-- Weekly rule: engine weekday 1 (Monday), 18:00 to 20:00, active. -/
def monRule : DoctorSchedule := ⟨1, 1, 1080, 1200, true⟩

/-- A small store with one doctor, one Monday rule, one patient, one
symptom mapping and no appointments. -/
def demoDB : DB :=
  { doctors := [drN], schedules := [monRule],
    patients := [⟨1, "Alice", "01712"⟩], appointments := [],
    time_slots := [], specialties := [⟨1, "Neurology"⟩],
    symptom_mappings := [⟨["headache"], 1, 1⟩] }

/-- A plain booking request with no date or time preference. -/
def reqHeadache : BookingRequest := ⟨"Alice", "01712", "headache", none, none, "chat"⟩

/-- The appointment the demo booking commits. -/
def demoApt : Appointment :=
  ⟨1, 1, 1, 0, 1080, 30, "scheduled", "headache", "", "XH001", "chat"⟩

/-- The empty store. -/
def emptyDB : DB := ⟨[], [], [], [], [], [], []⟩

/-- A request whose symptom text the classifier rates high. -/
def reqEmergency : BookingRequest := ⟨"Eve", "019", "emergency", none, none, "chat"⟩

/-- Store for the preferred-time window counterexample: the only rule is on
engine weekday 2 (dates that are 1 mod 7), midnight to 01:00. -/
def exC7 : DB :=
  { doctors := [drN], schedules := [⟨1, 2, 0, 60, true⟩],
    patients := [], appointments := [], time_slots := [],
    specialties := [], symptom_mappings := [] }

/-- Candidate list handed to the slot allocator in the C7 counterexample. -/
def docs7 : List RecDoctor := [⟨1, "Dr. N", "Neurology", some 1⟩]

/-- A request with a preferred time of 06:00, far from every slot of
`demoDB`, so the allocator accepts nothing. -/
def reqC8 : BookingRequest := ⟨"Bob", "018", "headache", none, some 360, "chat"⟩

/-- Store for the tie-break counterexample: two specialties score equally
on "pain", the mapping of the larger specialty id coming first. -/
def exC9 : DB :=
  { doctors := [⟨1, "Dr. A", "Cardiology"⟩, ⟨2, "Dr. B", "Dermatology"⟩],
    schedules := [], patients := [], appointments := [], time_slots := [],
    specialties := [⟨1, "Cardiology"⟩, ⟨2, "Dermatology"⟩],
    symptom_mappings := [⟨["pain"], 2, 1⟩, ⟨["pain"], 1, 1⟩] }

/-- A pre-existing appointment of the demo patient far in the future. -/
def aptOld : Appointment :=
  ⟨1, 1, 1, 100, 1080, 30, "scheduled", "old", "", "XH001", "chat"⟩

/-- The demo store with the future appointment already booked. -/
def exC10 : DB := { demoDB with appointments := [aptOld] }

/-- The demo store with a Monday 18:00 appointment already booked
(legally, inside the Monday rule). -/
def exC4 : DB := { demoDB with appointments := [demoApt] }

/-- Date-then-time lexicographic strict order on (date, time) pairs. -/
def dateTimeLt (p q : Nat × Nat) : Prop :=
  p.1 < q.1 ∨ (p.1 = q.1 ∧ p.2 < q.2)

/-- The total additive score of a specialty against a symptom text: every
keyword of every mapping row of that specialty that is a substring of the
lowercased text contributes the row's priority. -/
def totalScore (db : DB) (symptoms : String) (sid : Nat) : Nat :=
  sumScores (lowerChars symptoms) db.symptom_mappings sid

/-! ## Supporting lemmas -/

/-- The closed form of `slotTimes` satisfies the loop equation of the
source's `while current_time < end_time` loop. -/
theorem slotTimes_eq (start stop : Nat) :
    slotTimes start stop =
      if start < stop then start :: slotTimes (start + 30) stop else [] := by
  unfold slotTimes
  by_cases h : start < stop
  · simp only [if_pos h]
    have hc : (stop - start + 29) / 30 = (stop - (start + 30) + 29) / 30 + 1 := by
      omega
    rw [hc, List.range_succ_eq_map]
    simp only [List.map_cons, List.map_map, Nat.mul_zero, Nat.add_zero]
    congr 1
    apply List.map_congr_left
    intro i _
    simp only [Function.comp_apply]
    omega
  · simp only [if_neg h]
    have hc : (stop - start + 29) / 30 = 0 := by omega
    rw [hc]
    rfl

/-- Every generated candidate time lies in the rule's half-open range. -/
theorem slotTimes_mem {start stop t : Nat} (h : t ∈ slotTimes start stop) :
    start ≤ t ∧ t < stop := by
  unfold slotTimes at h
  rcases List.mem_map.1 h with ⟨i, hi, rfl⟩
  rw [List.mem_range] at hi
  omega

/-- Candidate times are strictly increasing. -/
theorem slotTimes_sorted (start stop : Nat) :
    (slotTimes start stop).Pairwise (· < ·) := by
  unfold slotTimes
  rw [List.pairwise_map]
  exact (List.pairwise_lt_range _).imp (by omega)

/-- The recheck boolean means exactly the spec's slot-openness condition. -/
theorem is_slot_still_available_iff (db : DB) (did d t : Nat) :
    is_slot_still_available db did d t = true ↔ specSlotOpen db did d t := by
  unfold is_slot_still_available specSlotOpen notBlockedAt
  rw [Bool.and_eq_true, Option.isNone_iff_eq_none, Option.isNone_iff_eq_none,
    List.find?_eq_none, List.find?_eq_none]
  constructor
  · rintro ⟨h1, h2⟩
    refine ⟨fun a ha hc => h1 a ha ?_, fun s hs hc => h2 s hs ?_⟩
    · simp only [Bool.and_eq_true, beq_iff_eq]
      exact ⟨⟨⟨hc.1, hc.2.1⟩, hc.2.2.1⟩, hc.2.2.2⟩
    · simp only [Bool.and_eq_true, beq_iff_eq]
      exact ⟨⟨⟨hc.1, hc.2.1⟩, hc.2.2.1⟩, hc.2.2.2⟩
  · rintro ⟨h1, h2⟩
    refine ⟨fun a ha hc => h1 a ha ?_, fun s hs hc => h2 s hs ?_⟩
    · simp only [Bool.and_eq_true, beq_iff_eq] at hc
      exact ⟨hc.1.1.1, hc.1.1.2, hc.1.2, hc.2⟩
    · simp only [Bool.and_eq_true, beq_iff_eq] at hc
      exact ⟨hc.1.1.1, hc.1.1.2, hc.1.2, hc.2⟩

/-- Finding or creating a patient only touches the `patients` table. -/
theorem get_or_create_patient_tables (db : DB) (n ph : String) :
    ∃ ps, (get_or_create_patient db n ph).1 = { db with patients := ps } := by
  unfold get_or_create_patient
  cases db.patients.find? (fun p => p.phone == ph) with
  | none => exact ⟨_, rfl⟩
  | some p => exact ⟨db.patients, rfl⟩

/-- Unpack a membership in the availability generator's output: the slot
carries the queried doctor id, has consistent derived fields, lies inside
some active weekly rule of that doctor, and passes the openness check. -/
theorem mem_get_doctor_availability {db : DB} {did start days : Nat} {slot : Slot}
    (h : slot ∈ get_doctor_availability db did start days) :
    slot.doctor_id = did ∧
    slot.sdatetime = slot.date * 1440 + slot.time ∧
    start ≤ slot.date ∧ slot.date ≤ start + days ∧
    ruleCovers db did slot.date slot.time ∧
    is_slot_still_available db did slot.date slot.time = true := by
  unfold get_doctor_availability at h
  cases hdoc : db.doctors.find? (fun doc => doc.id == did) with
  | none => rw [hdoc] at h; cases h
  | some doc =>
    rw [hdoc] at h
    have hdocid : doc.id = did := by
      have := List.find?_some hdoc
      exact beq_iff_eq.1 this
    rcases List.mem_flatMap.1 h with ⟨i, hi, hmem⟩
    rw [List.mem_range] at hi
    unfold daySlots at hmem
    cases hrule : firstActiveRule db doc.id (codeDow (start + i)) with
    | none => rw [hrule] at hmem; cases hmem
    | some r =>
      rw [hrule] at hmem
      rcases List.mem_map.1 hmem with ⟨t, ht, rfl⟩
      rcases List.mem_filter.1 ht with ⟨htt, hav⟩
      have hbounds := slotTimes_mem htt
      have hr1 := List.find?_some hrule
      have hr2 := List.mem_of_find?_eq_some hrule
      simp only [Bool.and_eq_true, beq_iff_eq] at hr1
      refine ⟨hdocid, rfl, show start ≤ start + i by omega,
        show start + i ≤ start + days by omega, ?_, ?_⟩
      · exact ⟨r, by rw [← hdocid]; exact hr2, hr1.2, hr1.1, hbounds.1, hbounds.2⟩
      · rw [← hdocid]; exact hav

/-- Unpack a successful slot search: the returned slot passed the recheck,
came from the availability generator for some day of the 14-day window and
one of the first five candidate doctors, and (when a preferred time is set)
its datetime is within 120 minutes of the preferred time placed on the
search date that produced it. -/
theorem find_best_some {db : DB} {docs : List RecDoctor} {pd pt : Option Nat}
    {today : Nat} {slot : Slot}
    (h : find_best_available_slot db docs pd pt today = some slot) :
    is_slot_still_available db slot.doctor_id slot.date slot.time = true ∧
    ∃ offset < 14, ∃ doc ∈ docs.take 5,
      slot ∈ get_doctor_availability db doc.id (pd.getD today + offset) 1 ∧
      ∀ t, pt = some t →
        minuteDist slot.sdatetime ((pd.getD today + offset) * 1440 + t) ≤ 120 := by
  unfold find_best_available_slot at h
  rcases List.exists_of_findSome?_eq_some h with ⟨offset, hoff, h2⟩
  rw [List.mem_range] at hoff
  rcases List.exists_of_findSome?_eq_some h2 with ⟨doc, hdoc, h3⟩
  rcases List.exists_of_findSome?_eq_some h3 with ⟨s, hs, h4⟩
  by_cases hav : is_slot_still_available db s.doctor_id s.date s.time = true
  · rw [if_pos hav] at h4
    cases pt with
    | none =>
      cases h4
      exact ⟨hav, offset, hoff, doc, hdoc, hs, fun t ht => by cases ht⟩
    | some t =>
      dsimp only at h4
      by_cases hd : minuteDist s.sdatetime ((pd.getD today + offset) * 1440 + t) ≤ 120
      · rw [if_pos hd] at h4
        cases h4
        refine ⟨hav, offset, hoff, doc, hdoc, hs, ?_⟩
        rintro t' ht'
        cases ht'
        exact hd
      · rw [if_neg hd] at h4
        cases h4
  · rw [if_neg hav] at h4
    cases h4

/-- A successful `find?` splits the list at the first match, and
`updateFirst` with the same predicate rewrites exactly that element. -/
theorem find?_updateFirst {p : α → Bool} {l : List α} {x : α} (f : α → α)
    (h : l.find? p = some x) :
    ∃ l1 l2, l = l1 ++ x :: l2 ∧ updateFirst p f l = l1 ++ f x :: l2 := by
  induction l with
  | nil => cases h
  | cons y ys ih =>
    cases hp : p y with
    | true =>
      rw [List.find?_cons_of_pos _ hp] at h
      cases h
      exact ⟨[], ys, rfl, by unfold updateFirst; rw [if_pos hp]; rfl⟩
    | false =>
      rw [List.find?_cons_of_neg _ (by simp [hp])] at h
      rcases ih h with ⟨l1, l2, hsplit, hupd⟩
      refine ⟨y :: l1, l2, by rw [hsplit]; rfl, ?_⟩
      unfold updateFirst
      rw [if_neg (by simp [hp]), hupd]
      rfl

/-- Replace the middle element of a pairwise-good split, given the new
element relates to both sides (for a symmetric relation). -/
theorem pairwise_replace_middle {R : α → α → Prop} (hsymm : ∀ a b, R a b → R b a)
    {l1 l2 : List α} {x y : α} (h : (l1 ++ x :: l2).Pairwise R)
    (hy : ∀ b ∈ l1 ++ l2, R y b) :
    (l1 ++ y :: l2).Pairwise R := by
  rw [List.pairwise_append] at h ⊢
  rcases h with ⟨h1, h2, h12⟩
  rw [List.pairwise_cons] at h2 ⊢
  refine ⟨h1, ⟨fun b hb => hy b (List.mem_append.2 (Or.inr hb)), h2.2⟩, ?_⟩
  intro a ha b hb
  rcases List.mem_cons.1 hb with rfl | hb2
  · exact hsymm _ _ (hy a (List.mem_append.2 (Or.inl ha)))
  · exact h12 a ha b (List.mem_cons_of_mem _ hb2)

/-- The patient upsert does not change what slots are available. -/
theorem is_slot_still_available_goc (db : DB) (n ph : String) (did d t : Nat) :
    is_slot_still_available (get_or_create_patient db n ph).1 did d t =
      is_slot_still_available db did d t := by
  rcases get_or_create_patient_tables db n ph with ⟨ps, hps⟩
  rw [hps]
  rfl

/-- The double-booking conflict relation is symmetric. -/
theorem conflict_symm (a b : Appointment) (h : conflict a b) : conflict b a := by
  obtain ⟨h1, h2, h3, h4, h5⟩ := h
  exact ⟨h2, h1, h3.symm, h4.symm, h5.symm⟩

/-- A slot that passes the recheck conflicts with no stored row: no
`scheduled` appointment occupies its (doctor, date, time). -/
theorem available_no_conflict {db : DB} {did d t : Nat}
    (h : is_slot_still_available db did d t = true) :
    ∀ a ∈ db.appointments,
      ¬(a.status = "scheduled" ∧ a.doctor_id = did ∧
        a.appointment_date = d ∧ a.appointment_time = t) := by
  have := (is_slot_still_available_iff db did d t).1 h
  intro a ha hc
  exact this.1 a ha ⟨hc.2.1, hc.2.2.1, hc.2.2.2, hc.1⟩

/-- A slot that passes the recheck coincides with no blocked row. -/
theorem available_not_blocked {db : DB} {did d t : Nat}
    (h : is_slot_still_available db did d t = true) :
    notBlockedAt db did d t :=
  ((is_slot_still_available_iff db did d t).1 h).2

/-- Shape of one booking call: either it fails and leaves the appointment
table unchanged, or it books exactly the appointment built from the slot
the allocator accepted and the serial the issuer produced, appending it as
the new last row. -/
theorem book_shape (db : DB) (req : BookingRequest) (today : Nat) :
    ((book_appointment db req today).1.appointments = db.appointments ∧
      ∀ apt, (book_appointment db req today).2.outcome ≠ .booked apt) ∨
    ∃ slot apt,
      find_best_available_slot
        (get_or_create_patient db req.patient_name req.patient_phone).1
        (search_doctors_by_symptoms
          (get_or_create_patient db req.patient_name req.patient_phone).1
          req.symptoms)
        req.preferred_date req.preferred_time today = some slot ∧
      generate_serial_number db = some apt.serial_number ∧
      (book_appointment db req today).2.outcome = .booked apt ∧
      (book_appointment db req today).1.appointments = db.appointments ++ [apt] ∧
      apt.doctor_id = slot.doctor_id ∧ apt.appointment_date = slot.date ∧
      apt.appointment_time = slot.time ∧ apt.status = "scheduled" ∧
      apt.patient_id =
        (get_or_create_patient db req.patient_name req.patient_phone).2.id ∧
      apt.symptoms = req.symptoms := by
  rcases get_or_create_patient_tables db req.patient_name req.patient_phone with
    ⟨ps, hps⟩
  unfold book_appointment
  dsimp only
  rw [hps]
  split
  · exact Or.inl ⟨rfl, by intro apt hc; cases hc⟩
  · split
    · exact Or.inl ⟨rfl, by intro apt hc; cases hc⟩
    · split
      · exact Or.inl ⟨rfl, by intro apt hc; cases hc⟩
      · rename_i slot hslot
        unfold create_appointment
        cases hgen : generate_serial_number { db with patients := ps } with
        | none =>
          simp only [Option.map_none]
          exact Or.inl ⟨rfl, by intro apt hc; cases hc⟩
        | some serial =>
          simp only [Option.map_some]
          refine Or.inr ⟨slot, _, hslot, ?_, rfl, rfl, rfl, rfl, rfl, rfl, rfl, rfl⟩
          have : generate_serial_number { db with patients := ps } =
              generate_serial_number db := by
            unfold generate_serial_number; rfl
          rw [← this, hgen]

/-- Congruence for `flatMap` on a common list. -/
theorem flatMap_congr {f g : α → List β} :
    ∀ {l : List α}, (∀ a ∈ l, f a = g a) → l.flatMap f = l.flatMap g
  | [], _ => rfl
  | a :: l, h => by
    rw [List.flatMap_cons, List.flatMap_cons, h a (List.mem_cons_self a l),
      flatMap_congr (fun b hb => h b (List.mem_cons_of_mem a hb))]

/-- Pairwise for a concatenation of blocks: pairwise inside each block and
pairwise between blocks. -/
theorem pairwise_flatMap_of {R : β → β → Prop} {f : α → List β} :
    ∀ {l : List α}, (∀ a ∈ l, (f a).Pairwise R) →
    l.Pairwise (fun a b => ∀ x ∈ f a, ∀ y ∈ f b, R x y) →
    (l.flatMap f).Pairwise R
  | [], _, _ => List.Pairwise.nil
  | a :: l, h1, h2 => by
    rw [List.flatMap_cons, List.pairwise_append]
    refine ⟨h1 a (List.mem_cons_self a l),
      pairwise_flatMap_of (fun b hb => h1 b (List.mem_cons_of_mem a hb))
        (List.pairwise_cons.1 h2).2, ?_⟩
    intro x hx y hy
    rcases List.mem_flatMap.1 hy with ⟨b, hb, hyb⟩
    exact (List.pairwise_cons.1 h2).1 b hb x hx y hyb

/-! ## Claim C1 -/

/-- C1: for every store with no two `scheduled` appointments sharing
(doctor id, date, time), each mutating operation executed sequentially —
book (whose allocator rechecks the chosen slot with
_is_slot_still_available before the insert), cancel, and reschedule (which
rechecks the new slot before mutating) — preserves that invariant. -/
theorem C1_mutating_ops_preserve_no_double_booking (db : DB) (h : NoDouble db) :
    (∀ req today, NoDouble (book_appointment db req today).1) ∧
    (∀ aid reason, NoDouble (cancel_appointment db aid reason).1) ∧
    (∀ aid nd nt now, NoDouble (reschedule_appointment db aid nd nt now).1) := by
  refine ⟨?_, ?_, ?_⟩
  · intro req today
    rcases book_shape db req today with ⟨heq, _⟩ | ⟨slot, apt, hfind, _, _, heq, hdoc, hdate, htime, hstat, _, _⟩
    · unfold NoDouble
      rw [heq]
      exact h
    · have hav := (find_best_some hfind).1
      rw [is_slot_still_available_goc] at hav
      have hav' := hav
      unfold NoDouble
      rw [heq, List.pairwise_append]
      refine ⟨h, List.pairwise_singleton _ _, ?_⟩
      intro a ha b hb
      rcases List.mem_singleton.1 hb with rfl
      intro hc
      obtain ⟨ha1, hb1, hk1, hk2, hk3⟩ := hc
      exact available_no_conflict hav' a ha
        ⟨ha1, by rw [hk1, hdoc], by rw [hk2, hdate], by rw [hk3, htime]⟩
  · intro aid reason
    unfold cancel_appointment
    cases hfind : db.appointments.find? (findScheduled aid) with
    | none => exact h
    | some apt =>
      rcases find?_updateFirst (cancelUpdate reason) hfind with ⟨l1, l2, hsplit, hupd⟩
      unfold NoDouble
      dsimp only
      rw [hupd]
      have h' : (l1 ++ apt :: l2).Pairwise (fun a b => ¬ conflict a b) := by
        rw [← hsplit]; exact h
      refine pairwise_replace_middle
        (fun a b hab hc => hab (conflict_symm _ _ hc)) h' ?_
      intro b _ hc
      obtain ⟨h1, _⟩ := hc
      have hne : ("cancelled" : String) ≠ "scheduled" := by decide
      exact hne h1
  · intro aid nd nt now
    unfold reschedule_appointment
    cases hfind : db.appointments.find? (findScheduled aid) with
    | none => exact h
    | some apt =>
      dsimp only
      by_cases hav : is_slot_still_available db apt.doctor_id nd nt = true
      · rw [if_pos hav]
        rcases find?_updateFirst (rescheduleUpdate nd nt now) hfind with
          ⟨l1, l2, hsplit, hupd⟩
        unfold NoDouble
        dsimp only
        rw [hupd]
        have h' : (l1 ++ apt :: l2).Pairwise (fun a b => ¬ conflict a b) := by
          rw [← hsplit]; exact h
        refine pairwise_replace_middle
          (fun a b hab hc => hab (conflict_symm _ _ hc)) h' ?_
        intro b hb hc
        obtain ⟨_, hb1, hk1, hk2, hk3⟩ := hc
        have hbmem : b ∈ db.appointments := by
          rw [hsplit]
          rcases List.mem_append.1 hb with h1 | h2
          · exact List.mem_append.2 (Or.inl h1)
          · exact List.mem_append.2 (Or.inr (List.mem_cons_of_mem _ h2))
        exact available_no_conflict hav b hbmem ⟨hb1, hk1.symm, hk2.symm, hk3.symm⟩
      · rw [if_neg hav]
        exact h

/-- Witness for C1 at a concrete store: the demo store satisfies the
invariant and a successful booking from it preserves it. -/
theorem C1_witness :
    NoDouble demoDB ∧ NoDouble (book_appointment demoDB reqHeadache 0).1 :=
  ⟨by decide,
   (C1_mutating_ops_preserve_no_double_booking demoDB (by decide)).1 reqHeadache 0⟩

/-! ## Claim C2 -/

/-- One day of the generator agrees with the spec's wording. -/
theorem daySlots_spec (db : DB) (doc : Doctor) (did d : Nat) (hid : doc.id = did) :
    (daySlots db doc d).map (fun s => (s.date, s.time)) =
      (match firstActiveRule db did (codeDow d) with
        | none => []
        | some r =>
          ((slotTimes r.start_time r.end_time).filter
              (fun t => decide (specSlotOpen db did d t))).map (fun t => (d, t))) := by
  subst hid
  unfold daySlots
  cases firstActiveRule db doc.id (codeDow d) with
  | none => rfl
  | some r =>
    dsimp only
    rw [List.map_map]
    have hfilter :
        (slotTimes r.start_time r.end_time).filter
            (fun t => is_slot_still_available db doc.id d t) =
          (slotTimes r.start_time r.end_time).filter
            (fun t => decide (specSlotOpen db doc.id d t)) := by
      apply List.filter_congr
      intro t _
      rw [Bool.eq_iff_iff, decide_eq_true_iff]
      exact is_slot_still_available_iff db doc.id d t
    rw [hfilter]
    apply List.map_congr_left
    intro t _
    rfl

/-- C2: the availability generator returns exactly the spec's slots — for
each date from startDate through startDate plus numDays inclusive, the
first matching active rule's 30-minute times from rule start (inclusive)
to rule end (exclusive) that carry no scheduled appointment and no blocked
slot — ordered date-ascending then time-ascending; in particular, for the
demo doctor with one active Monday rule 18:00-20:00 and no bookings, that
Monday yields exactly 18:00, 18:30, 19:00, 19:30. -/
theorem C2_availability_matches_spec (db : DB) (did start days : Nat)
    (doc : Doctor) (hdoc : db.doctors.find? (fun d => d.id == did) = some doc) :
    ((get_doctor_availability db did start days).map (fun s => (s.date, s.time)) =
      availabilitySpec db did start days) ∧
    (availabilitySpec db did start days).Pairwise dateTimeLt ∧
    (get_doctor_availability demoDB 1 0 0).map (fun s => (s.date, s.time)) =
      [(0, 1080), (0, 1110), (0, 1140), (0, 1170)] := by
  have hid : doc.id = did := by
    have h1 := List.find?_some hdoc
    simp only [beq_iff_eq] at h1
    exact h1
  refine ⟨?_, ?_, by decide⟩
  · unfold get_doctor_availability availabilitySpec
    rw [hdoc, List.map_flatMap]
    exact flatMap_congr (fun i _ => daySlots_spec db doc did (start + i) hid)
  · unfold availabilitySpec
    apply pairwise_flatMap_of
    · intro i _
      dsimp only
      cases firstActiveRule db did (codeDow (start + i)) with
      | none => exact List.Pairwise.nil
      | some r =>
        dsimp only
        rw [List.pairwise_map]
        refine List.Pairwise.imp ?_
          ((slotTimes_sorted r.start_time r.end_time).filter _)
        intro t1 t2 hlt
        exact Or.inr ⟨rfl, hlt⟩
    · have hrange : (List.range (days + 1)).Pairwise (· < ·) :=
        List.pairwise_lt_range _
      refine hrange.imp ?_
      intro i j hij x hx y hy
      have hxd : x.1 = start + i := by
        revert hx
        dsimp only
        cases firstActiveRule db did (codeDow (start + i)) with
        | none => intro hx; cases hx
        | some r =>
          intro hx
          rcases List.mem_map.1 hx with ⟨t, _, rfl⟩
          rfl
      have hyd : y.1 = start + j := by
        revert hy
        dsimp only
        cases firstActiveRule db did (codeDow (start + j)) with
        | none => intro hy; cases hy
        | some r =>
          intro hy
          rcases List.mem_map.1 hy with ⟨t, _, rfl⟩
          rfl
      exact Or.inl (by omega)

/-- Witness for C2 at the demo store. -/
theorem C2_witness :
    demoDB.doctors.find? (fun d => d.id == 1) = some drN ∧
    (get_doctor_availability demoDB 1 0 0).map (fun s => (s.date, s.time)) =
      availabilitySpec demoDB 1 0 0 :=
  ⟨by decide, (C2_availability_matches_spec demoDB 1 0 0 drN (by decide)).1⟩

/-! ## Claim C6 -/

/-- Filter emptiness is the negation of `any`. -/
theorem filter_isEmpty_eq_not_any (p : α → Bool) :
    ∀ (l : List α), (l.filter p).isEmpty = !(l.any p)
  | [] => rfl
  | a :: l => by
    rw [List.filter_cons, List.any_cons]
    cases h : p a
    · rw [if_neg (by simp [h]), Bool.false_or]
      exact filter_isEmpty_eq_not_any p l
    · rw [if_pos (by simp [h]), Bool.true_or, Bool.not_true]
      rfl

/-- C6: the classifier checks the fixed high-severity list first and any
hit forces `high` regardless of other matches; only when no high-severity
keyword is a substring of the lowercased text does it check the
medium-severity list, any hit forcing `medium`; otherwise `low`.  In
particular "severe chest pain" is high, "chest pain" medium, and
"routine checkup" low. -/
theorem C6_urgency_tiers (s : String) :
    ((get_urgent_symptoms_check s).urgency_level =
      if urgent_keywords.any (fun k => isSubstr k.toList (lowerChars s)) then "high"
      else if medium_keywords.any (fun k => isSubstr k.toList (lowerChars s)) then "medium"
      else "low") ∧
    (get_urgent_symptoms_check "severe chest pain").urgency_level = "high" ∧
    (get_urgent_symptoms_check "chest pain").urgency_level = "medium" ∧
    (get_urgent_symptoms_check "routine checkup").urgency_level = "low" := by
  refine ⟨?_, by decide, by decide, by decide⟩
  unfold get_urgent_symptoms_check
  dsimp only
  rw [filter_isEmpty_eq_not_any, filter_isEmpty_eq_not_any]
  cases h1 : urgent_keywords.any (fun k => isSubstr k.toList (lowerChars s))
  · cases h2 : medium_keywords.any (fun k => isSubstr k.toList (lowerChars s))
    · rfl
    · rfl
  · rfl

/-! ## Claim C5 -/

/-- The patient upsert does not change the symptom search. -/
theorem search_doctors_goc (db : DB) (n ph sym : String) :
    search_doctors_by_symptoms (get_or_create_patient db n ph).1 sym =
      search_doctors_by_symptoms db sym := by
  rcases get_or_create_patient_tables db n ph with ⟨ps, hps⟩
  rw [hps]
  rfl

/-- C5 counterexample: on the empty store, the request "emergency" is rated
high by the classifier, yet book returns the no-doctors outcome, not the
emergency-redirect outcome. -/
theorem C5_counterexample :
    (get_urgent_symptoms_check "emergency").urgency_level = "high" ∧
    (book_appointment emptyDB reqEmergency 0).2.outcome = BookOutcome.noDoctors ∧
    BookOutcome.noDoctors ≠
      BookOutcome.urgent (get_urgent_symptoms_check "emergency").recommendation :=
  ⟨by decide, by decide, by decide⟩

/-- C5 amended: for every book request rated high, book performs no slot
search and no commit — the appointment table is unchanged, the response is
unsuccessful with no alternative slots — and whenever the symptom matcher
returns at least one doctor it is exactly the emergency-redirect outcome
(when no doctor matches, the no-doctors outcome is returned first). -/
theorem C5_amended_urgency_gate (db : DB) (req : BookingRequest) (today : Nat)
    (h : (get_urgent_symptoms_check req.symptoms).urgency_level = "high") :
    (book_appointment db req today).1.appointments = db.appointments ∧
    (book_appointment db req today).2.success = false ∧
    (book_appointment db req today).2.available_slots = [] ∧
    (search_doctors_by_symptoms db req.symptoms ≠ [] →
      (book_appointment db req today).2.outcome =
        BookOutcome.urgent (get_urgent_symptoms_check req.symptoms).recommendation) := by
  rcases get_or_create_patient_tables db req.patient_name req.patient_phone with
    ⟨ps, hps⟩
  unfold book_appointment
  dsimp only
  rw [hps]
  have hsearch :
      search_doctors_by_symptoms { db with patients := ps } req.symptoms =
        search_doctors_by_symptoms db req.symptoms := rfl
  rw [hsearch]
  by_cases hre : search_doctors_by_symptoms db req.symptoms = []
  · rw [if_pos (by rw [List.isEmpty_iff]; exact hre)]
    exact ⟨rfl, rfl, rfl, fun hc => absurd hre hc⟩
  · rw [if_neg (by rw [List.isEmpty_iff]; exact hre)]
    rw [if_pos (by rw [h]; rfl)]
    exact ⟨rfl, rfl, rfl, fun _ => rfl⟩

/-- Witness for the amended C5 on a store where a doctor does match:
"emergency" rates high, and book returns the emergency redirect leaving the
appointment table unchanged. -/
theorem C5_witness :
    (get_urgent_symptoms_check "emergency").urgency_level = "high" ∧
    ((book_appointment demoDB
        ⟨"Eve", "019", "emergency", none, none, "chat"⟩ 0).1.appointments =
      demoDB.appointments ∧
    (book_appointment demoDB
        ⟨"Eve", "019", "emergency", none, none, "chat"⟩ 0).2.success = false ∧
    (book_appointment demoDB
        ⟨"Eve", "019", "emergency", none, none, "chat"⟩ 0).2.available_slots = [] ∧
    (search_doctors_by_symptoms demoDB "emergency" ≠ [] →
      (book_appointment demoDB
          ⟨"Eve", "019", "emergency", none, none, "chat"⟩ 0).2.outcome =
        BookOutcome.urgent (get_urgent_symptoms_check "emergency").recommendation)) :=
  ⟨by decide,
   C5_amended_urgency_gate demoDB ⟨"Eve", "019", "emergency", none, none, "chat"⟩ 0
     (by decide)⟩

/-! ## Claim C7 -/

/-- C7 counterexample: with preferredDate day 0 and preferredTime 22:30,
the allocator accepts the slot of day 1 at 00:00 — its date differs from
the preferred date and its time of day is 1350 minutes from the preferred
time; only the cross-date datetime difference (90 minutes) is small. -/
theorem C7_counterexample :
    (find_best_available_slot exC7 docs7 (some 0) (some 1350) 0).map
      (fun s => s.date) = some 1 ∧
    (find_best_available_slot exC7 docs7 (some 0) (some 1350) 0).map
      (fun s => s.date) ≠ some 0 ∧
    (find_best_available_slot exC7 docs7 (some 0) (some 1350) 0).map
      (fun s => s.time) = some 0 ∧
    ¬ minuteDist 0 1350 ≤ 120 :=
  ⟨by decide, by decide, by decide, by decide⟩

/-- C7 amended: when preferredTime is set, the allocator accepts a slot
(after the recheck) only if the slot's full datetime is within 120 minutes
of the preferred time placed on the current search day — the search day
starts at preferredDate (or today) and advances through the 14-day window,
so the accepted slot's date may differ from preferredDate and the slot's
time of day may differ from preferredTime by more than two hours across
midnight. -/
theorem C7_amended_preferred_time_window (db : DB) (docs : List RecDoctor)
    (pd pt : Option Nat) (today : Nat) (slot : Slot) (t : Nat)
    (h : find_best_available_slot db docs pd pt today = some slot)
    (hpt : pt = some t) :
    is_slot_still_available db slot.doctor_id slot.date slot.time = true ∧
    ∃ offset < 14,
      minuteDist (slot.date * 1440 + slot.time)
        ((pd.getD today + offset) * 1440 + t) ≤ 120 := by
  rcases find_best_some h with ⟨hav, offset, hoff, doc, _, hmem, hwin⟩
  have hdt := (mem_get_doctor_availability hmem).2.1
  refine ⟨hav, offset, hoff, ?_⟩
  rw [← hdt]
  exact hwin t hpt

/-- Witness for the amended C7 at the concrete accepted slot of day 1,
00:00 (90 datetime minutes from 22:30 on day 0). -/
theorem C7_witness :
    is_slot_still_available exC7 1 1 0 = true ∧
    ∃ offset < 14, minuteDist (1 * 1440 + 0) ((0 + offset) * 1440 + 1350) ≤ 120 :=
  C7_amended_preferred_time_window exC7 docs7 (some 0) (some 1350) 0
    ⟨1, 0, 1440, 1, "Dr. N", "Neurology"⟩ 1350 (by decide) rfl

/-! ## Claim C8 -/

/-- C8 counterexample: on the demo store with preferred time 06:00 the
allocator accepts nothing, and the returned alternative list contains five
slots of the single candidate doctor — more than three per doctor. -/
theorem C8_counterexample :
    (book_appointment demoDB reqC8 0).2.outcome = BookOutcome.noAvailability ∧
    ((book_appointment demoDB reqC8 0).2.available_slots.filter
      (fun s => s.doctor_id == 1)).length = 5 ∧
    ¬((book_appointment demoDB reqC8 0).2.available_slots.filter
      (fun s => s.doctor_id == 1)).length ≤ 3 :=
  ⟨by decide, by decide, by decide⟩

/-- C8 amended: when the 14-day search yields no accepted slot, book
returns an unsuccessful result whose alternative list takes up to five
(not three) slots per doctor from up to three candidate doctors and is
capped at ten slots in total. -/
theorem C8_amended_alternatives (db : DB) (req : BookingRequest) (today : Nat)
    (h : (book_appointment db req today).2.outcome = BookOutcome.noAvailability) :
    (book_appointment db req today).2.available_slots =
      (((search_doctors_by_symptoms db req.symptoms).take 3).flatMap
        (fun d => (get_doctor_availability db d.id today 14).take 5)).take 10 ∧
    (book_appointment db req today).2.available_slots.length ≤ 10 ∧
    (book_appointment db req today).2.success = false := by
  rcases get_or_create_patient_tables db req.patient_name req.patient_phone with
    ⟨ps, hps⟩
  unfold book_appointment at h ⊢
  dsimp only at h ⊢
  rw [hps] at h ⊢
  by_cases he :
      (search_doctors_by_symptoms { db with patients := ps } req.symptoms).isEmpty
        = true
  · rw [if_pos he] at h
    exact BookOutcome.noConfusion h
  · rw [if_neg he] at h ⊢
    by_cases hu :
        ((get_urgent_symptoms_check req.symptoms).urgency_level == "high") = true
    · rw [if_pos hu] at h
      exact BookOutcome.noConfusion h
    · rw [if_neg hu] at h ⊢
      revert h
      cases hfind : find_best_available_slot { db with patients := ps }
          (search_doctors_by_symptoms { db with patients := ps } req.symptoms)
          req.preferred_date req.preferred_time today with
      | none =>
        intro _
        exact ⟨rfl, List.length_take_le _ _, rfl⟩
      | some slot =>
        intro h
        dsimp only at h
        revert h
        cases hgen : create_appointment { db with patients := ps }
            (get_or_create_patient db req.patient_name req.patient_phone).2.id
            slot.doctor_id slot.date slot.time req.symptoms req.booking_channel with
        | none => intro h; exact BookOutcome.noConfusion h
        | some pr => intro h; exact BookOutcome.noConfusion h

/-- Witness for the amended C8 at the demo store. -/
theorem C8_witness :
    (book_appointment demoDB reqC8 0).2.available_slots =
      (((search_doctors_by_symptoms demoDB "headache").take 3).flatMap
        (fun d => (get_doctor_availability demoDB d.id 0 14).take 5)).take 10 ∧
    (book_appointment demoDB reqC8 0).2.available_slots.length ≤ 10 ∧
    (book_appointment demoDB reqC8 0).2.success = false :=
  C8_amended_alternatives demoDB reqC8 0 (by decide)

/-! ## Claim C3: serial arithmetic -/

/-- Reading back the digit character of a digit value below ten. -/
theorem charDigit_digitChar : ∀ d < 10, charDigit? (digitChar d) = some d := by
  decide

/-- One step of the accumulating read over a digit character. -/
theorem digitsVal_cons_digit {c : Char} {d : Nat} (h : charDigit? c = some d)
    (cs : List Char) (acc : Nat) :
    digitsVal (c :: cs) acc = digitsVal cs (acc * 10 + d) := by
  simp only [digitsVal, h]

/-- Parsing what the decimal writer wrote continues the accumulating read:
consuming the rendered digits of `n` multiplies the accumulator by a power
of ten and adds `n`. -/
theorem digitsVal_natReprAux :
    ∀ (fuel n : Nat), n < fuel → ∀ (acc : List Char) (v : Nat),
      ∃ e, digitsVal (natReprAux fuel n acc) v = digitsVal acc (v * 10 ^ e + n)
  | 0, n, h, _, _ => absurd h (Nat.not_lt_zero n)
  | fuel + 1, n, h, acc, v => by
    unfold natReprAux
    by_cases hn : n < 10
    · rw [if_pos hn]
      refine ⟨1, ?_⟩
      rw [digitsVal_cons_digit (charDigit_digitChar n hn)]
      norm_num
    · rw [if_neg hn]
      have hlt : n / 10 < fuel := by omega
      rcases digitsVal_natReprAux fuel (n / 10) hlt
        (digitChar (n % 10) :: acc) v with ⟨e, he⟩
      refine ⟨e + 1, ?_⟩
      rw [he, digitsVal_cons_digit (charDigit_digitChar (n % 10) (Nat.mod_lt n (by omega)))]
      congr 1
      have hdm : 10 * (n / 10) + n % 10 = n := Nat.div_add_mod n 10
      calc (v * 10 ^ e + n / 10) * 10 + n % 10
          = v * (10 ^ e * 10) + (10 * (n / 10) + n % 10) := by ring
        _ = v * 10 ^ (e + 1) + n := by rw [hdm, pow_succ]

/-- Leading zeros contribute nothing to a read that starts at zero. -/
theorem digitsVal_replicate_zero :
    ∀ (z : Nat) (cs : List Char),
      digitsVal (List.replicate z (digitChar 0) ++ cs) 0 = digitsVal cs 0
  | 0, _ => rfl
  | z + 1, cs => by
    rw [List.replicate_succ, List.cons_append,
      digitsVal_cons_digit (charDigit_digitChar 0 (by omega))]
    exact digitsVal_replicate_zero z cs

/-- The padded serial digit block is never empty. -/
theorem pad3_ne_nil (cs : List Char) : pad3 cs ≠ [] := by
  unfold pad3
  intro h
  rcases List.append_eq_nil.1 h with ⟨h1, h2⟩
  rw [List.replicate_eq_nil_iff] at h1
  subst h2
  simp at h1

/-- Python `int` on a nonempty string is the accumulating read. -/
theorem pyInt?_eq {cs : List Char} (h : cs ≠ []) : pyInt? cs = digitsVal cs 0 := by
  cases cs with
  | nil => exact absurd rfl h
  | cons c rest => rfl

/-- Round trip: parsing a rendered serial returns its numeric suffix. -/
theorem serialSuffix_mkSerial (n : Nat) : serialSuffix? (mkSerial n) = some n := by
  unfold serialSuffix? mkSerial
  have htl : (String.mk ('X' :: 'H' :: pad3 (natRepr n))).toList =
      'X' :: 'H' :: pad3 (natRepr n) := rfl
  rw [htl]
  have hdrop : ('X' :: 'H' :: pad3 (natRepr n)).drop 2 = pad3 (natRepr n) := rfl
  rw [hdrop, pyInt?_eq (pad3_ne_nil _)]
  unfold pad3
  rw [digitsVal_replicate_zero]
  unfold natRepr
  rcases digitsVal_natReprAux (n + 1) n (Nat.lt_succ_self n) [] 0 with ⟨e, he⟩
  rw [he, digitsVal]
  norm_num

/-- In a strictly increasing list the last element bounds every element. -/
theorem pairwise_lt_le_getLast? :
    ∀ {l : List Nat}, l.Pairwise (· < ·) → ∀ {m : Nat}, l.getLast? = some m →
      ∀ x ∈ l, x ≤ m
  | [], _, _, hm, _, hx => by cases hx
  | a :: t, hp, m, hm, x, hx => by
    cases ht : t with
    | nil =>
      subst ht
      rcases List.mem_singleton.1 hx with rfl
      cases hm
      exact Nat.le_refl _
    | cons b t2 =>
      have htne : t ≠ [] := by rw [ht]; exact List.cons_ne_nil b t2
      have hm2 : t.getLast? = some m := by
        rw [← hm, List.getLast?_eq_getLast (a :: t) (List.cons_ne_nil a t),
          List.getLast?_eq_getLast t htne, List.getLast_cons htne]
      have hp2 := List.pairwise_cons.1 hp
      rcases List.mem_cons.1 hx with rfl | hx2
      · have hmem : t.getLast htne ∈ t := List.getLast_mem htne
        have : x < t.getLast htne := hp2.1 _ hmem
        have hlast : t.getLast? = some (t.getLast htne) :=
          List.getLast?_eq_getLast t htne
        rw [hm2] at hlast
        cases hlast
        exact Nat.le_of_lt this
      · exact pairwise_lt_le_getLast? hp2.2 hm2 x hx2

/-- On a well-formed store the issuer produces exactly the next suffix's
rendering. -/
theorem generate_wf (db : DB) (h : SerialsWF db) :
    generate_serial_number db = some (mkSerial (nextSuffix db.appointments)) := by
  unfold generate_serial_number nextSuffix
  cases hlast : db.appointments.getLast? with
  | none => rfl
  | some a =>
    dsimp only
    have hmem : a ∈ db.appointments := by
      cases hne : db.appointments with
      | nil => rw [hne] at hlast; cases hlast
      | cons b t =>
        rw [← hne]
        have h1 : db.appointments ≠ [] := by rw [hne]; exact List.cons_ne_nil b t
        rw [List.getLast?_eq_getLast _ h1] at hlast
        cases hlast
        exact List.getLast_mem h1
    have hser := h.1 a hmem
    rw [hser, serialSuffix_mkSerial]
    rfl

/-- Every stored suffix is below the next issued suffix. -/
theorem suffix_lt_nextSuffix {appts : List Appointment}
    (hp : (appts.map apptSuffix).Pairwise (· < ·)) :
    ∀ x ∈ appts.map apptSuffix, x < nextSuffix appts := by
  intro x hx
  unfold nextSuffix
  cases hlast : appts.getLast? with
  | none =>
    rw [List.getLast?_eq_none_iff] at hlast
    subst hlast
    cases hx
  | some a =>
    have hml : (appts.map apptSuffix).getLast? = some (apptSuffix a) := by
      rw [List.getLast?_map, hlast]
      rfl
    have hle := pairwise_lt_le_getLast? hp hml x hx
    show x < apptSuffix a + 1
    omega

/-- Appending a row moves the next suffix past that row's. -/
theorem nextSuffix_concat (l : List Appointment) (a : Appointment) :
    nextSuffix (l ++ [a]) = apptSuffix a + 1 := by
  unfold nextSuffix
  rw [List.getLast?_concat]

/-- One booking step preserves the serial invariant, and a successful one
appends an appointment whose serial renders exactly the next suffix. -/
theorem book_step_serials (db : DB) (req : BookingRequest) (today : Nat)
    (h : SerialsWF db) :
    SerialsWF (book_appointment db req today).1 ∧
    (((book_appointment db req today).1.appointments = db.appointments ∧
       ∀ apt, (book_appointment db req today).2.outcome ≠ .booked apt) ∨
     (∃ apt, (book_appointment db req today).2.outcome = .booked apt ∧
       (book_appointment db req today).1.appointments = db.appointments ++ [apt] ∧
       apt.serial_number = mkSerial (nextSuffix db.appointments) ∧
       apptSuffix apt = nextSuffix db.appointments)) := by
  rcases book_shape db req today with ⟨heq, hnb⟩ |
    ⟨slot, apt, _, hgen, hout, heq, _⟩
  · constructor
    · unfold SerialsWF
      rw [heq]
      exact h
    · exact Or.inl ⟨heq, hnb⟩
  · have hser : apt.serial_number = mkSerial (nextSuffix db.appointments) := by
      have h2 := generate_wf db h
      rw [hgen] at h2
      exact Option.some_injective _ h2
    have hsuf : apptSuffix apt = nextSuffix db.appointments := by
      unfold apptSuffix
      rw [hser, serialSuffix_mkSerial]
      rfl
    constructor
    · constructor
      · intro a ha
        rw [heq] at ha
        rcases List.mem_append.1 ha with h1 | h2
        · exact h.1 a h1
        · rcases List.mem_singleton.1 h2 with rfl
          rw [hser, hsuf]
      · rw [heq, List.map_append, List.pairwise_append]
        refine ⟨h.2, List.pairwise_singleton _ _, ?_⟩
        intro x hx y hy
        rcases List.mem_singleton.1 hy with rfl
        have := suffix_lt_nextSuffix h.2 x hx
        rw [hsuf]
        exact this
    · exact Or.inr ⟨apt, hout, heq, hser, hsuf⟩

/-- Running a sequence of bookings preserves the serial invariant, and the
issued serials render strictly increasing suffixes all at least the next
suffix of the starting store. -/
theorem bookRun_serials (today : Nat) :
    ∀ (reqs : List BookingRequest) (db : DB), SerialsWF db →
      SerialsWF (bookRun today db reqs).1 ∧
      ((bookRun today db reqs).2.map
        (fun s => (serialSuffix? s).getD 0)).Pairwise (· < ·) ∧
      ∀ s ∈ (bookRun today db reqs).2,
        ∃ k, s = mkSerial k ∧ nextSuffix db.appointments ≤ k ∧
          (serialSuffix? s).getD 0 = k
  | [], db, h => ⟨h, List.Pairwise.nil, fun s hs => absurd hs (List.not_mem_nil s)⟩
  | r :: rs, db, h => by
    unfold bookRun
    dsimp only
    rcases book_step_serials db r today h with ⟨hwf1, hcase⟩
    rcases bookRun_serials today rs (book_appointment db r today).1 hwf1 with
      ⟨hwf2, hpw, hall⟩
    rcases hcase with ⟨heq, hnb⟩ | ⟨apt, hout, heq, hser, hsuf⟩
    · have hrest :
          SerialsWF (bookRun today (book_appointment db r today).1 rs).1 ∧
          ((bookRun today (book_appointment db r today).1 rs).2.map
            (fun s => (serialSuffix? s).getD 0)).Pairwise (· < ·) ∧
          ∀ s ∈ (bookRun today (book_appointment db r today).1 rs).2,
            ∃ k, s = mkSerial k ∧ nextSuffix db.appointments ≤ k ∧
              (serialSuffix? s).getD 0 = k := by
        refine ⟨hwf2, hpw, fun s hs => ?_⟩
        rcases hall s hs with ⟨k, h1, h2, h3⟩
        rw [heq] at h2
        exact ⟨k, h1, h2, h3⟩
      cases hoc : (book_appointment db r today).2.outcome with
      | booked apt => exact absurd hoc (hnb apt)
      | noDoctors => exact hrest
      | urgent rec => exact hrest
      | noAvailability => exact hrest
      | bookError => exact hrest
    · rw [hout]
      dsimp only
      have hnext : nextSuffix (book_appointment db r today).1.appointments =
          nextSuffix db.appointments + 1 := by
        rw [heq, nextSuffix_concat, hsuf]
      refine ⟨hwf2, ?_, ?_⟩
      · rw [List.map_cons, List.pairwise_cons]
        refine ⟨?_, hpw⟩
        intro y hy
        rcases List.mem_map.1 hy with ⟨s, hs, rfl⟩
        rcases hall s hs with ⟨k, _, h2, h3⟩
        rw [h3]
        have : apptSuffix apt = nextSuffix db.appointments := hsuf
        unfold apptSuffix at this
        rw [this]
        omega
      · intro s hs
        rcases List.mem_cons.1 hs with rfl | hs2
        · refine ⟨nextSuffix db.appointments, hser, Nat.le_refl _, ?_⟩
          have := hsuf
          unfold apptSuffix at this
          exact this
        · rcases hall s hs2 with ⟨k, h1, h2, h3⟩
          refine ⟨k, h1, ?_, h3⟩
          omega

/-- C3: on any reachable (serially well-formed) store the issuer produces
the fixed form XH plus the 3-zero-padded successor of the highest stored
suffix (XH001 on an empty store), and across any sequence of successive
bookings the issued serials have strictly increasing suffixes, hence are
pairwise distinct, in issuance order. -/
theorem C3_serial_numbers (db : DB) (h : SerialsWF db) :
    (db.appointments = [] → generate_serial_number db = some "XH001") ∧
    (∀ hne : db.appointments ≠ [],
      ∃ m, m ∈ db.appointments.map apptSuffix ∧
        (∀ x ∈ db.appointments.map apptSuffix, x ≤ m) ∧
        generate_serial_number db = some (mkSerial (m + 1))) ∧
    (∀ today reqs,
      ((bookRun today db reqs).2.map
        (fun s => (serialSuffix? s).getD 0)).Pairwise (· < ·) ∧
      (bookRun today db reqs).2.Pairwise (· ≠ ·)) := by
  refine ⟨?_, ?_, ?_⟩
  · intro he
    have h2 := generate_wf db h
    rw [he] at h2
    rw [h2]
    have : mkSerial (nextSuffix []) = "XH001" := by decide
    rw [this]
  · intro hne
    refine ⟨apptSuffix (db.appointments.getLast hne),
      List.mem_map_of_mem apptSuffix (List.getLast_mem hne), ?_, ?_⟩
    · apply pairwise_lt_le_getLast? h.2
      rw [List.getLast?_map, List.getLast?_eq_getLast _ hne]
      rfl
    · have h2 := generate_wf db h
      rw [h2]
      unfold nextSuffix
      rw [List.getLast?_eq_getLast _ hne]
  · intro today reqs
    rcases bookRun_serials today reqs db h with ⟨_, hpw, _⟩
    refine ⟨hpw, ?_⟩
    rw [List.pairwise_map] at hpw
    refine hpw.imp ?_
    intro a b hlt heqab
    rw [heqab] at hlt
    exact absurd hlt (lt_irrefl _)

/-- Witness for C3: the store with one XH001 appointment is well formed,
and a successful booking run from it issues increasing serials. -/
theorem C3_witness :
    SerialsWF exC10 ∧
    ((bookRun 0 exC10 [reqHeadache]).2.map
      (fun s => (serialSuffix? s).getD 0)).Pairwise (· < ·) :=
  ⟨by decide, ((C3_serial_numbers exC10 (by decide)).2.2 0 [reqHeadache]).1⟩

/-! ## Claim C4 -/

/-- Booking never touches the schedule-rule or blocked-slot tables, and its
patient table is the one the upsert produced. -/
theorem book_tables (db : DB) (req : BookingRequest) (today : Nat) :
    (book_appointment db req today).1.schedules = db.schedules ∧
    (book_appointment db req today).1.time_slots = db.time_slots ∧
    (book_appointment db req today).1.patients =
      (get_or_create_patient db req.patient_name req.patient_phone).1.patients ∧
    (book_appointment db req today).1.doctors = db.doctors := by
  rcases get_or_create_patient_tables db req.patient_name req.patient_phone with
    ⟨ps, hps⟩
  unfold book_appointment
  dsimp only
  rw [hps]
  split
  · exact ⟨rfl, rfl, rfl, rfl⟩
  · split
    · exact ⟨rfl, rfl, rfl, rfl⟩
    · split
      · exact ⟨rfl, rfl, rfl, rfl⟩
      · unfold create_appointment
        cases generate_serial_number { db with patients := ps } with
        | none => exact ⟨rfl, rfl, rfl, rfl⟩
        | some s => exact ⟨rfl, rfl, rfl, rfl⟩

/-- Rule coverage only reads the schedule table. -/
theorem ruleCovers_congr {db db' : DB} (hs : db'.schedules = db.schedules)
    {did d t : Nat} (h : ruleCovers db did d t) : ruleCovers db' did d t := by
  unfold ruleCovers schedulesFor at h ⊢
  rw [hs]
  exact h

/-- Blocked-slot freedom only reads the blocked-slot table. -/
theorem notBlockedAt_congr {db db' : DB} (ht : db'.time_slots = db.time_slots)
    {did d t : Nat} (h : notBlockedAt db did d t) : notBlockedAt db' did d t := by
  unfold notBlockedAt at h ⊢
  rw [ht]
  exact h

/-- Row legality only reads the schedule and blocked-slot tables. -/
theorem SlotLegal_congr {db db' : DB} (hs : db'.schedules = db.schedules)
    (ht : db'.time_slots = db.time_slots) {a : Appointment}
    (h : SlotLegal db a) : SlotLegal db' a := by
  intro hstat
  rcases h hstat with ⟨h1, h2⟩
  exact ⟨ruleCovers_congr hs h1, notBlockedAt_congr ht h2⟩

/-- C4 counterexample: the demo store with its Monday 18:00 appointment
satisfies invariant (c), the reschedule of that appointment to Tuesday
(a day with no weekly rule) succeeds, and the resulting store violates the
invariant — reschedule does not validate the new slot against the weekly
rules. -/
theorem C4_counterexample :
    WithinRules exC4 ∧
    (reschedule_appointment exC4 1 1 1080 "2025-01-01 10:00").2.success = true ∧
    ¬ WithinRules (reschedule_appointment exC4 1 1 1080 "2025-01-01 10:00").1 :=
  ⟨by decide, by decide, by decide⟩

/-- C4 amended: book (whose slot comes from the availability generator and
passes the recheck) preserves the full invariant — every scheduled
appointment inside some active rule of its doctor and on no blocked slot —
while reschedule preserves only the blocked-slot half (its recheck covers
conflicts and blocks but never rule membership). -/
theorem C4_amended_slot_legality (db : DB) :
    (WithinRules db →
      ∀ req today, WithinRules (book_appointment db req today).1) ∧
    (NotBlockedInv db →
      ∀ aid nd nt now, NotBlockedInv (reschedule_appointment db aid nd nt now).1) := by
  constructor
  · intro hw req today
    rcases book_tables db req today with ⟨hsch, hts, _⟩
    rcases book_shape db req today with ⟨heq, _⟩ |
      ⟨slot, apt, hfind, _, _, heq, hdoc, hdate, htime, _, _, _⟩
    · intro a ha
      rw [heq] at ha
      exact SlotLegal_congr hsch hts (hw a ha)
    · intro a ha
      rw [heq] at ha
      rcases List.mem_append.1 ha with h1 | h2
      · exact SlotLegal_congr hsch hts (hw a h1)
      · rcases List.mem_singleton.1 h2 with rfl
        intro _
        rcases find_best_some hfind with ⟨hav, _, _, _, _, hmem, _⟩
        rcases mem_get_doctor_availability hmem with ⟨hdid, _, _, _, hcov, _⟩
        have hgs : (get_or_create_patient db req.patient_name req.patient_phone).1.schedules
            = db.schedules := by
          rcases get_or_create_patient_tables db req.patient_name req.patient_phone
            with ⟨ps, hps⟩
          rw [hps]
        have hgt : (get_or_create_patient db req.patient_name req.patient_phone).1.time_slots
            = db.time_slots := by
          rcases get_or_create_patient_tables db req.patient_name req.patient_phone
            with ⟨ps, hps⟩
          rw [hps]
        have hcov2 : ruleCovers db slot.doctor_id slot.date slot.time := by
          rw [hdid]
          exact ruleCovers_congr hgs.symm hcov
        have hnb : notBlockedAt db slot.doctor_id slot.date slot.time :=
          notBlockedAt_congr hgt.symm (available_not_blocked hav)
        constructor
        · rw [hdoc, hdate, htime]
          exact ruleCovers_congr hsch hcov2
        · rw [hdoc, hdate, htime]
          exact notBlockedAt_congr hts hnb
  · intro hb aid nd nt now
    unfold reschedule_appointment
    cases hfind : db.appointments.find? (findScheduled aid) with
    | none => exact hb
    | some apt =>
      dsimp only
      by_cases hav : is_slot_still_available db apt.doctor_id nd nt = true
      · rw [if_pos hav]
        rcases find?_updateFirst (rescheduleUpdate nd nt now) hfind with
          ⟨l1, l2, hsplit, hupd⟩
        intro a ha hstat
        dsimp only at ha
        rw [hupd] at ha
        have hmemdb : ∀ b, b ∈ l1 ∨ b ∈ l2 → b ∈ db.appointments := by
          intro b hborn
          rw [hsplit]
          rcases hborn with h1 | h2
          · exact List.mem_append.2 (Or.inl h1)
          · exact List.mem_append.2 (Or.inr (List.mem_cons_of_mem _ h2))
        rcases List.mem_append.1 ha with h1 | h2
        · exact @notBlockedAt_congr db _ rfl _ _ _ (hb a (hmemdb a (Or.inl h1)) hstat)
        · rcases List.mem_cons.1 h2 with rfl | h3
          · exact @notBlockedAt_congr db _ rfl _ _ _ (available_not_blocked hav)
          · exact @notBlockedAt_congr db _ rfl _ _ _ (hb a (hmemdb a (Or.inr h3)) hstat)
      · rw [if_neg hav]
        exact hb

/-- Witness for the amended C4 at the demo store. -/
theorem C4_witness :
    WithinRules demoDB ∧ WithinRules (book_appointment demoDB reqHeadache 0).1 :=
  ⟨by decide, (C4_amended_slot_legality demoDB).1 (by decide) reqHeadache 0⟩

/-! ## Claim C9 -/

/-- Splitting the stored value over an append. -/
theorem assocScore_append (l1 l2 : List (Nat × Nat)) (sid : Nat) :
    assocScore (l1 ++ l2) sid = assocScore l1 sid + assocScore l2 sid := by
  unfold assocScore
  rw [List.filter_append, List.map_append, List.sum_append]

/-- Unfolding the stored value over a cons. -/
theorem assocScore_cons (q : Nat × Nat) (rest : List (Nat × Nat)) (sid : Nat) :
    assocScore (q :: rest) sid =
      (if q.1 = sid then q.2 else 0) + assocScore rest sid := by
  unfold assocScore
  by_cases h : q.1 = sid
  · rw [List.filter_cons_of_pos (by simpa using h), List.map_cons, List.sum_cons,
      if_pos h]
  · rw [List.filter_cons_of_neg (by simpa using h), if_neg h, Nat.zero_add]

/-- A key absent from the dictionary stores zero. -/
theorem assocScore_eq_zero {l : List (Nat × Nat)} {sid : Nat}
    (h : ∀ p ∈ l, p.1 ≠ sid) : assocScore l sid = 0 := by
  unfold assocScore
  have hf : l.filter (fun p => p.1 == sid) = [] := by
    rw [List.filter_eq_nil_iff]
    intro p hp
    simpa using h p hp
  rw [hf]
  rfl

/-- Under distinct keys each entry stores exactly its value. -/
theorem assocScore_of_nodup :
    ∀ {l : List (Nat × Nat)}, (l.map Prod.fst).Nodup →
      ∀ p ∈ l, assocScore l p.1 = p.2
  | [], _, p, hp => absurd hp (List.not_mem_nil p)
  | q :: rest, hn, p, hp => by
    rw [List.map_cons, List.nodup_cons] at hn
    rcases List.mem_cons.1 hp with rfl | hp2
    · rw [assocScore_cons, if_pos rfl]
      have hz : assocScore rest p.1 = 0 := by
        apply assocScore_eq_zero
        intro q2 hq2 hqe
        exact hn.1 (by rw [← hqe]; exact List.mem_map_of_mem Prod.fst hq2)
      rw [hz]
      exact Nat.add_zero _
    · have hne : q.1 ≠ p.1 := by
        intro he
        exact hn.1 (by rw [he]; exact List.mem_map_of_mem Prod.fst hp2)
      rw [assocScore_cons, if_neg hne, assocScore_of_nodup hn.2 p hp2, Nat.zero_add]

/-- Adding a score keeps the dictionary keys distinct. -/
theorem addScore_keys_nodup {l : List (Nat × Nat)}
    (hn : (l.map Prod.fst).Nodup) (sid0 sc : Nat) :
    ((addScore l sid0 sc).map Prod.fst).Nodup := by
  unfold addScore
  by_cases hp : l.any (fun p => p.1 == sid0) = true
  · rw [if_pos hp]
    have hkeys : (l.map (fun p => if p.1 == sid0 then (p.1, p.2 + sc) else p)).map
        Prod.fst = l.map Prod.fst := by
      rw [List.map_map]
      apply List.map_congr_left
      intro p _
      by_cases h : p.1 == sid0
      · simp only [Function.comp_apply, if_pos h]
      · simp only [Function.comp_apply, if_neg h]
    rw [hkeys]
    exact hn
  · rw [if_neg hp, List.map_append]
    refine List.Nodup.append hn (List.nodup_singleton _) ?_
    intro x hx1 hx2
    rcases List.mem_singleton.1 hx2 with hx3
    rcases List.mem_map.1 hx1 with ⟨p, hpl, hpfst⟩
    rw [Bool.not_eq_true, List.any_eq_false] at hp
    have hne := hp p hpl
    apply hne
    simp only [beq_iff_eq]
    rw [hpfst, hx3]

/-- Updating the present key adds the score to exactly that key's value. -/
theorem assocScore_update :
    ∀ {l : List (Nat × Nat)}, (l.map Prod.fst).Nodup →
      ∀ {sid0 : Nat}, (∃ p ∈ l, p.1 = sid0) → ∀ (sc sid : Nat),
      assocScore (l.map (fun p => if p.1 == sid0 then (p.1, p.2 + sc) else p)) sid
        = assocScore l sid + (if sid = sid0 then sc else 0)
  | [], _, _, hmem, _, _ => by
    rcases hmem with ⟨p, hp, _⟩
    exact absurd hp (List.not_mem_nil p)
  | q :: rest, hn, sid0, hmem, sc, sid => by
    rw [List.map_cons, List.nodup_cons] at hn
    by_cases hq : q.1 = sid0
    · rw [List.map_cons, if_pos (by simpa using hq)]
      have hrest : rest.map (fun p => if p.1 == sid0 then (p.1, p.2 + sc) else p)
          = rest := by
        conv_rhs => rw [← List.map_id rest]
        apply List.map_congr_left
        intro p hp
        have hne : p.1 ≠ sid0 := by
          intro he
          exact hn.1 (by rw [hq, ← he]; exact List.mem_map_of_mem Prod.fst hp)
        rw [if_neg (by simpa using hne)]
        rfl
      rw [hrest, assocScore_cons, assocScore_cons]
      by_cases hs : sid = sid0
      · have hc1 : ((q.1, q.2 + sc) : Nat × Nat).1 = sid := by
          show q.1 = sid
          rw [hq, hs]
        rw [if_pos hc1, if_pos (show q.1 = sid by rw [hq, hs]), if_pos hs]
        show q.2 + sc + assocScore rest sid = q.2 + assocScore rest sid + sc
        omega
      · have hqs : ¬ ((q.1, q.2 + sc) : Nat × Nat).1 = sid := by
          show ¬ q.1 = sid
          rw [hq]
          exact fun he => hs he.symm
        rw [if_neg hqs, if_neg (show ¬ q.1 = sid from hqs), if_neg hs]
        omega
    · rw [List.map_cons, if_neg (by simpa using hq)]
      have hmem2 : ∃ p ∈ rest, p.1 = sid0 := by
        rcases hmem with ⟨p, hp, hpe⟩
        rcases List.mem_cons.1 hp with rfl | hp2
        · exact absurd hpe hq
        · exact ⟨p, hp2, hpe⟩
      rw [assocScore_cons, assocScore_cons, assocScore_update hn.2 hmem2 sc sid]
      omega

/-- Adding a score changes exactly the target key's stored value. -/
theorem assocScore_addScore {l : List (Nat × Nat)}
    (hn : (l.map Prod.fst).Nodup) (sid0 sc sid : Nat) :
    assocScore (addScore l sid0 sc) sid =
      assocScore l sid + (if sid = sid0 then sc else 0) := by
  unfold addScore
  by_cases hp : l.any (fun p => p.1 == sid0) = true
  · rw [if_pos hp]
    rcases List.any_eq_true.1 hp with ⟨p, hpl, hpe⟩
    exact assocScore_update hn ⟨p, hpl, by simpa using hpe⟩ sc sid
  · rw [if_neg hp, assocScore_append, assocScore_cons]
    have : assocScore ([] : List (Nat × Nat)) sid = 0 := rfl
    rw [this]
    by_cases hs : sid = sid0
    · rw [if_pos (show (sid0, sc).1 = sid by rw [hs]), if_pos hs]
      show assocScore l sid + (sc + 0) = assocScore l sid + sc
      omega
    · rw [if_neg (show ¬ (sid0, sc).1 = sid from fun he => hs he.symm), if_neg hs]

/-- The mapping fold accumulates, per specialty, exactly the additive sum
of the remaining mappings' scores, keeping keys distinct. -/
theorem scores_foldl (text : List Char) :
    ∀ (ms : List SymptomMapping) (l : List (Nat × Nat)),
      (l.map Prod.fst).Nodup →
      ((ms.foldl (scoreStep text) l).map Prod.fst).Nodup ∧
      ∀ sid, assocScore (ms.foldl (scoreStep text) l) sid =
        assocScore l sid + sumScores text ms sid
  | [], l, hn => ⟨hn, fun sid => by
      unfold sumScores
      simp⟩
  | m :: rest, l, hn => by
    rw [List.foldl_cons]
    have hstep_n : ((scoreStep text l m).map Prod.fst).Nodup := by
      unfold scoreStep
      by_cases h : 0 < mappingScore text m
      · rw [if_pos h]
        exact addScore_keys_nodup hn _ _
      · rw [if_neg h]
        exact hn
    rcases scores_foldl text rest (scoreStep text l m) hstep_n with ⟨hn2, hass⟩
    refine ⟨hn2, fun sid => ?_⟩
    rw [hass sid]
    have hstep : assocScore (scoreStep text l m) sid =
        assocScore l sid +
          (if m.specialty_id = sid then mappingScore text m else 0) := by
      unfold scoreStep
      by_cases h : 0 < mappingScore text m
      · rw [if_pos h, assocScore_addScore hn]
        by_cases he : sid = m.specialty_id
        · rw [if_pos he, if_pos he.symm]
        · rw [if_neg he, if_neg (fun hx => he hx.symm)]
      · rw [if_neg h]
        have h0 : mappingScore text m = 0 := by omega
        rw [h0]
        simp
    rw [hstep]
    have hsum : sumScores text (m :: rest) sid =
        (if m.specialty_id = sid then mappingScore text m else 0) +
          sumScores text rest sid := by
      unfold sumScores
      by_cases h : m.specialty_id = sid
      · rw [List.filter_cons_of_pos (by simpa using h), List.map_cons,
          List.sum_cons, if_pos h]
      · rw [List.filter_cons_of_neg (by simpa using h), if_neg h, Nat.zero_add]
    rw [hsum]
    omega

/-- The score dictionary has distinct keys and stores, for each specialty,
its total additive score. -/
theorem specialty_scores_correct (db : DB) (sym : String) :
    ((specialty_scores db sym).map Prod.fst).Nodup ∧
    ∀ p ∈ specialty_scores db sym, p.2 = totalScore db sym p.1 := by
  have h := scores_foldl (lowerChars sym) db.symptom_mappings []
    (by simp)
  refine ⟨h.1, fun p hp => ?_⟩
  have hv := assocScore_of_nodup h.1 p hp
  rw [← hv, h.2 p.1]
  unfold totalScore
  exact Nat.zero_add _

/-- C9 counterexample: two specialties tie on "pain" with the mapping of
specialty 2 first in the table; the selection ranks specialty 2 first —
insertion order, not ascending specialty id — and the doctors follow in
that order. -/
theorem C9_counterexample :
    sorted_specialties exC9 "pain" = [(2, 1), (1, 1)] ∧
    sorted_specialties exC9 "pain" ≠ [(1, 1), (2, 1)] ∧
    (search_doctors_by_symptoms exC9 "pain").map (fun d => d.id) = [2, 1] :=
  ⟨by decide, by decide, by decide⟩

/-- C9 amended: the matcher selects the top 3 specialties of the additive
score table by score descending (every selected score dominates every
dropped one); among equal total scores the specialty whose first scoring
mapping appears earlier in the table is ranked first (stable insertion
order, not specialty id ascending); the selected doctors are annotated with
the specialty's aggregate additive score. -/
theorem C9_amended_symptom_ranking (db : DB) (sym : String) :
    (∀ p ∈ specialty_scores db sym, p.2 = totalScore db sym p.1) ∧
    (sorted_specialties db sym).length ≤ 3 ∧
    (sorted_specialties db sym).Pairwise (fun a b => b.2 ≤ a.2) ∧
    (∀ p ∈ sorted_specialties db sym,
      ∀ q ∈ ((specialty_scores db sym).insertionSort (keyDesc Prod.snd)).drop 3,
        q.2 ≤ p.2) ∧
    (∀ a b : Nat × Nat, [a, b].Sublist (specialty_scores db sym) → b.2 ≤ a.2 →
      [a, b].Sublist ((specialty_scores db sym).insertionSort (keyDesc Prod.snd))) ∧
    (∀ rd ∈ search_doctors_by_symptoms db sym,
      ∃ p ∈ sorted_specialties db sym,
        rd.match_score = some p.2 ∧ p.2 = totalScore db sym p.1) := by
  have hsorted : ((specialty_scores db sym).insertionSort
      (keyDesc Prod.snd)).Pairwise (keyDesc Prod.snd) :=
    List.sorted_insertionSort (keyDesc Prod.snd) (specialty_scores db sym)
  refine ⟨(specialty_scores_correct db sym).2, ?_, ?_, ?_, ?_, ?_⟩
  · calc (sorted_specialties db sym).length
        ≤ 3 ⊓ ((specialty_scores db sym).insertionSort (keyDesc Prod.snd)).length := by
          rw [sorted_specialties, List.length_take]
      _ ≤ 3 := inf_le_left
  · exact hsorted.sublist (List.take_sublist _ _)
  · intro p hp q hq
    have hsplit := List.take_append_drop 3
      ((specialty_scores db sym).insertionSort (keyDesc Prod.snd))
    have h2 : (((specialty_scores db sym).insertionSort (keyDesc Prod.snd)).take 3 ++
        ((specialty_scores db sym).insertionSort (keyDesc Prod.snd)).drop 3).Pairwise
          (keyDesc Prod.snd) := by
      rw [hsplit]
      exact hsorted
    exact (List.pairwise_append.1 h2).2.2 p hp q hq
  · intro a b hsub hle
    exact List.pair_sublist_insertionSort hle hsub
  · intro rd hrd
    unfold search_doctors_by_symptoms at hrd
    rcases List.mem_flatMap.1 hrd with ⟨p, hp, hin⟩
    refine ⟨p, hp, ?_, ?_⟩
    · revert hin
      cases db.specialties.find? (fun sp => sp.id == p.1) with
      | none => intro hin; cases hin
      | some sp =>
        intro hin
        rcases List.mem_map.1 hin with ⟨d, _, rfl⟩
        rfl
    · have hmem : p ∈ specialty_scores db sym := by
        have h1 : p ∈ (specialty_scores db sym).insertionSort (keyDesc Prod.snd) :=
          List.mem_of_mem_take hp
        exact (List.mem_insertionSort (keyDesc Prod.snd)).1 h1
      exact (specialty_scores_correct db sym).2 p hmem

/-! ## Claim C10 -/

/-- Searching past an unsuccessful first block. -/
theorem find?_append_none {p : α → Bool} :
    ∀ {l1 : List α}, l1.find? p = none → ∀ l2, (l1 ++ l2).find? p = l2.find? p
  | [], _, l2 => rfl
  | x :: xs, h, l2 => by
    cases hp : p x with
    | true => rw [List.find?_cons_of_pos _ hp] at h; cases h
    | false =>
      rw [List.find?_cons_of_neg _ (by simp [hp])] at h
      rw [List.cons_append, List.find?_cons_of_neg _ (by simp [hp])]
      exact find?_append_none h l2

/-- A phone lookup in the upserted patient table finds the upserted
patient. -/
theorem goc_phone_lookup (db : DB) (n ph : String) :
    (get_or_create_patient db n ph).1.patients.find? (fun p => p.phone == ph) =
      some (get_or_create_patient db n ph).2 := by
  unfold get_or_create_patient
  cases hf : db.patients.find? (fun p => p.phone == ph) with
  | some p => exact hf
  | none =>
    dsimp only
    rw [find?_append_none hf]
    rw [List.find?_cons_of_pos _ (by simp)]

/-- A successful booking appends exactly the booked appointment, whose
patient id is the id the upsert resolved. -/
theorem book_booked {db : DB} {req : BookingRequest} {today : Nat}
    {apt : Appointment}
    (h : (book_appointment db req today).2.outcome = .booked apt) :
    (book_appointment db req today).1.appointments = db.appointments ++ [apt] ∧
    apt.patient_id =
      (get_or_create_patient db req.patient_name req.patient_phone).2.id := by
  rcases book_shape db req today with ⟨_, hnb⟩ |
    ⟨slot, apt2, _, _, hout, heq, _, _, _, _, hpid, _⟩
  · exact absurd h (hnb apt)
  · have heq2 : BookOutcome.booked apt2 = BookOutcome.booked apt :=
      hout.symm.trans h
    injection heq2 with heq3
    subst heq3
    exact ⟨heq, hpid⟩

/-- C10 counterexample: the demo patient already holds a far-future
appointment XH001; a successful booking commits XH002 for the nearest
Monday, but getPatientAppointments lists XH001 first — ordered by
appointment date, not by booking recency. -/
theorem C10_counterexample :
    (book_appointment exC10 reqHeadache 0).2.outcome = BookOutcome.booked
      ⟨2, 1, 1, 0, 1080, 30, "scheduled", "headache", "", "XH002", "chat"⟩ ∧
    (get_patient_appointments (book_appointment exC10 reqHeadache 0).1
      "01712").map (fun e => e.serial_number) = ["XH001", "XH002"] ∧
    ((get_patient_appointments (book_appointment exC10 reqHeadache 0).1
      "01712").head?).map (fun e => e.serial_number) ≠ some "XH002" :=
  ⟨by decide, by decide, by decide⟩

/-- C10 amended: after every successful booking,
getPatientAppointments(phone) is non-empty, ordered by appointment date
descending, and contains the appointment just booked; that appointment is
the first entry when its date is strictly later than every other
appointment of that patient (not in general: the list orders by
appointment date, not booking recency). -/
theorem C10_amended_roundtrip (db : DB) (req : BookingRequest) (today : Nat)
    (apt : Appointment)
    (h : (book_appointment db req today).2.outcome = .booked apt) :
    get_patient_appointments (book_appointment db req today).1
      req.patient_phone ≠ [] ∧
    ((get_patient_appointments (book_appointment db req today).1
      req.patient_phone).map (fun e => e.date)).Pairwise (· ≥ ·) ∧
    (∃ e ∈ get_patient_appointments (book_appointment db req today).1
        req.patient_phone,
      e.serial_number = apt.serial_number ∧ e.date = apt.appointment_date ∧
      e.time = apt.appointment_time) ∧
    ((∀ a ∈ db.appointments, a.patient_id = apt.patient_id →
        a.appointment_date < apt.appointment_date) →
      ((get_patient_appointments (book_appointment db req today).1
        req.patient_phone).head?).map (fun e => e.serial_number) =
        some apt.serial_number) := by
  rcases book_booked h with ⟨happts, hpid⟩
  rcases book_tables db req today with ⟨_, _, hpat, _⟩
  unfold get_patient_appointments
  rw [hpat, goc_phone_lookup]
  dsimp only
  rw [← hpid, happts, List.filter_append]
  have hkeep : List.filter (fun a => a.patient_id == apt.patient_id) [apt] = [apt] := by
    rw [List.filter_cons_of_pos (by simp)]
    rfl
  rw [hkeep]
  set base := db.appointments.filter (fun a => a.patient_id == apt.patient_id) with hbase
  have haptmem : apt ∈ (base ++ [apt]).insertionSort byDateDesc := by
    rw [List.mem_insertionSort]
    exact List.mem_append.2 (Or.inr (List.mem_singleton.2 rfl))
  have hsorted : ((base ++ [apt]).insertionSort byDateDesc).Pairwise byDateDesc :=
    List.sorted_insertionSort byDateDesc _
  refine ⟨?_, ?_, ?_, ?_⟩
  · intro hnil
    rw [List.map_eq_nil_iff] at hnil
    rw [hnil] at haptmem
    cases haptmem
  · rw [List.map_map, List.pairwise_map]
    exact hsorted.imp (fun hab => hab)
  · refine ⟨_, List.mem_map_of_mem _ haptmem, rfl, rfl, rfl⟩
  · intro hmax
    cases hcons : (base ++ [apt]).insertionSort byDateDesc with
    | nil => rw [hcons] at haptmem; cases haptmem
    | cons a0 rest =>
      have ha0mem : a0 ∈ base ++ [apt] := by
        have : a0 ∈ (base ++ [apt]).insertionSort byDateDesc := by
          rw [hcons]; exact List.mem_cons_self a0 rest
        exact (List.mem_insertionSort byDateDesc).1 this
      have ha0 : a0 = apt := by
        rcases List.mem_append.1 ha0mem with hleft | hright
        · rw [hbase, List.mem_filter] at hleft
          have hlt : a0.appointment_date < apt.appointment_date :=
            hmax a0 hleft.1 (by simpa using hleft.2)
          rw [hcons] at haptmem hsorted
          rcases List.mem_cons.1 haptmem with rfl | haptrest
          · rfl
          · have h2 : apt.appointment_date ≤ a0.appointment_date :=
              (List.pairwise_cons.1 hsorted).1 apt haptrest
            exact absurd hlt (by omega)
        · exact List.mem_singleton.1 hright
      rw [ha0]
      rfl

/-- Witness for the amended C10: booking from the demo store (the patient
has no other appointments) puts the new appointment first. -/
theorem C10_witness :
    (book_appointment demoDB reqHeadache 0).2.outcome =
      BookOutcome.booked demoApt ∧
    ((get_patient_appointments (book_appointment demoDB reqHeadache 0).1
      reqHeadache.patient_phone).head?).map (fun e => e.serial_number) =
      some demoApt.serial_number :=
  ⟨by decide,
   (C10_amended_roundtrip demoDB reqHeadache 0 demoApt (by decide)).2.2.2
     (by decide)⟩

end Hospital
